import Mathlib

/-!
Verification development for the loambase data pipeline.

Shallow embedding of the field-normalization layer (app/tasks/enrich_plants.py),
the merge engine (enrich_plants), and the harvesting coordinators
(app/tasks/fetch_perenual.py, app/tasks/fetch_permapeople.py,
app/tasks/fetch_utils.py).

Python machine floats are modelled as rationals; Python exceptions are modelled
with Except Unit; SQL rows are modelled as association lists and structures.
-/

namespace Loambase

/-! ## Python string and number primitives -/

def isWs (c : Char) : Bool := c == ' ' || c == '\t' || c == '\n' || c == '\r'

def isDigDot (c : Char) : Bool := c.isDigit || c == '.'

def dropWhileEnd (p : Char → Bool) (l : List Char) : List Char :=
  (l.reverse.dropWhile p).reverse

/-- Python str.strip with no argument: remove whitespace from both ends. -/
def pyStrip (l : List Char) : List Char := dropWhileEnd isWs (l.dropWhile isWs)

/-- Python str.strip(c): remove the character c from both ends. -/
def pyStripChar (c : Char) (l : List Char) : List Char :=
  dropWhileEnd (· == c) (l.dropWhile (· == c))

def pyLowerL (l : List Char) : List Char := l.map Char.toLower

def pyStripS (s : String) : String := String.mk (pyStrip s.data)

def pyLower (s : String) : String := String.mk (pyLowerL s.data)

def pyStripLower (s : String) : String := String.mk (pyLowerL (pyStrip s.data))

/-- Python str.rstrip(c). -/
def pyRstripChar (c : Char) (l : List Char) : List Char :=
  dropWhileEnd (· == c) l

/-- Python str.replace for a multi-character pattern: scan left to right,
replacing non-overlapping occurrences. The fuel argument only bounds the
recursion (one unit per consumed input character) and is supplied as the
input length. -/
def replaceSubAux (pat rep : List Char) : ℕ → List Char → List Char
  | _, [] => []
  | 0, l => l
  | fuel + 1, c :: rest =>
    if pat ≠ [] ∧ pat.isPrefixOf (c :: rest) then
      rep ++ replaceSubAux pat rep fuel (rest.drop (pat.length - 1))
    else
      c :: replaceSubAux pat rep fuel rest

def replaceSub (pat rep : List Char) (l : List Char) : List Char :=
  replaceSubAux pat rep l.length l

def digitsVal (l : List Char) : ℕ :=
  l.foldl (fun n c => 10 * n + (c.toNat - 48)) 0

/-- Python float() on a token drawn from the character class of digits and
dots (the regex class used throughout enrich_plants): accepted iff the token
holds at least one digit and at most one dot. -/
def pyFloatDigits (l : List Char) : Option ℚ :=
  match l.splitOn '.' with
  | [a] => if a ≠ [] ∧ a.all Char.isDigit then some (digitsVal a) else none
  | [a, b] =>
    if (a ++ b) ≠ [] ∧ (a ++ b).all Char.isDigit then
      some ((digitsVal a : ℚ) + (digitsVal b : ℚ) / (10 : ℚ) ^ b.length)
    else none
  | _ => none

/-- Python float() on an arbitrary string: optional surrounding whitespace and
sign, decimal digits with at most one dot, optional exponent part.
(Non-finite literals have no rational counterpart and fall outside the model.) -/
def pyFloatFull (s : List Char) : Option ℚ :=
  let l := pyStrip s
  let (sign, l) : ℚ × List Char :=
    match l with
    | '+' :: r => (1, r)
    | '-' :: r => (-1, r)
    | r => (1, r)
  match (pyLowerL l).splitOn 'e' with
  | [m] => (pyFloatDigits m).map (fun q => sign * q)
  | [m, e] =>
    let (esign, ed) : ℤ × List Char :=
      match e with
      | '+' :: r => (1, r)
      | '-' :: r => (-1, r)
      | r => (1, r)
    if ed ≠ [] ∧ ed.all Char.isDigit then
      (pyFloatDigits m).map (fun q => sign * q * (10 : ℚ) ^ (esign * digitsVal ed))
    else none
  | _ => none

/-- Python round() to the nearest integer, ties to even. -/
def roundHalfEven (q : ℚ) : ℤ :=
  let f := ⌊q⌋
  let r := q - f
  if r < 1 / 2 then f
  else if 1 / 2 < r then f + 1
  else if f % 2 = 0 then f else f + 1

/-- Python round(x, n) for n decimal places, modelled exactly on rationals. -/
def roundTo (n : ℕ) (q : ℚ) : ℚ :=
  (roundHalfEven (q * (10 : ℚ) ^ n) : ℚ) / (10 : ℚ) ^ n

/-- Python int() on a float: truncation toward zero. -/
def pyTrunc (q : ℚ) : ℤ := if 0 ≤ q then ⌊q⌋ else -⌊-q⌋

/-- Two-digit zero-padded decimal rendering, as in Python {:02d} format. -/
def pad2 (n : ℕ) : String := if n < 10 then "0" ++ toString n else toString n

/-! ## Field Normalizer (app/tasks/enrich_plants.py)

Synonym tables and the per-field normalization functions. Functions that can
let a Python exception escape are given the type Except Unit; the error value
marks an uncaught ValueError/TypeError. -/

def WATER_MAP : List (String × String) := [
  ("dry", "low"),
  ("low", "low"),
  ("low/average", "low"),
  ("moist", "medium"),
  ("average to moist", "medium"),
  ("moist, well-drained, dry", "medium"),
  ("moist, dry", "medium"),
  ("dry, moist", "medium"),
  ("dry-wet", "medium"),
  ("dry, moist, wet", "medium"),
  ("dry, moist, wet, water", "medium"),
  ("wet, dry", "medium"),
  ("wet", "high"),
  ("water", "high"),
  ("moist, wet", "high"),
  ("wet, water", "high"),
  ("wet, moist", "high"),
  ("moist, wet, water", "high"),
  ("wet to moist", "high"),
  ("moist; wet", "high")]

def SUN_MAP : List (String × String) := [
  ("full sun", "full_sun"),
  ("full sun, partial sun/shade", "partial_shade"),
  ("partial sun/shade, full sun", "partial_shade"),
  ("full sun, partial sun/shade, full shade", "partial_shade"),
  ("partial sun/shade, full sun, full shade", "partial_shade"),
  ("full shade, full sun, partial sun/shade", "partial_shade"),
  ("full sun,partial sun/shade, partial sun/shade", "partial_shade"),
  ("partial sun/shade", "partial_shade"),
  ("partial sun/shade, full shade", "full_shade"),
  ("full shade, partial sun/shade", "full_shade"),
  ("full shade", "full_shade")]

def PLANT_TYPE_MAP : List (String × String) := [
  ("annual", "annual"),
  ("perennial", "perennial"),
  ("biennial", "biennial"),
  ("annual, biennial", "annual"),
  ("annual, perennial", "annual"),
  ("biennial, perennial", "perennial")]

def normalize_water (raw : String) : Option String :=
  WATER_MAP.lookup (pyStripLower raw)

def normalize_sun (raw : String) : Option String :=
  SUN_MAP.lookup (pyStripLower raw)

def normalize_plant_type (raw : String) : Option String :=
  PLANT_TYPE_MAP.lookup (pyStripLower raw)

/-! ### Hardiness zones -/

def SUBZONES : List Char := ['a', 'b']

/-- _parse_zone_endpoint: a token matching the regex class digits-then-optional
a/b is split into its number and sub-letter. The int() conversions cannot fail
on such tokens, so the surrounding try/except in the caller is vacuous. -/
def parseZoneEndpoint (g : List Char) : ℕ × Option Char :=
  let s := pyLowerL (pyStrip g)
  match s.getLast? with
  | some c =>
    if c = 'a' ∨ c = 'b' then (digitsVal s.dropLast, some c) else (digitsVal s, none)
  | none => (0, none)

def expand_zone_range (sn : ℕ) (ss : Option Char) (en : ℕ) (es : Option Char) :
    List String :=
  if ss = none ∧ es = none then
    (List.range' sn (en + 1 - sn)).map toString
  else
    let ssc := ss.getD 'a'
    let esc := es.getD 'b'
    (List.range' sn (en + 1 - sn)).flatMap (fun z =>
      SUBZONES.filterMap (fun sub =>
        if z = sn ∧ sub < ssc then none
        else if z = en ∧ sub > esc then none
        else some (toString z ++ sub.toString)))

/-- One endpoint of the zone-range regex: digits followed by an optional a/b
(case-insensitive). Greedily taking the sub-letter loses no matches because
the next pattern element is whitespace, a hyphen or the end of the string. -/
def zoneToken (l : List Char) : Option (List Char × List Char) :=
  match l.span Char.isDigit with
  | (d, r) =>
    if d = [] then none
    else
      match r with
      | c :: r2 =>
        if c.toLower = 'a' ∨ c.toLower = 'b' then some (d ++ [c], r2) else some (d, r)
      | [] => some (d, [])

/-- Full anchored match of the range regex digits[ab]? - digits[ab]?. -/
def zoneRangeMatch (l : List Char) : Option (List Char × List Char) :=
  match zoneToken l with
  | none => none
  | some (t1, r) =>
    match r.dropWhile isWs with
    | '-' :: r2 =>
      match zoneToken (r2.dropWhile isWs) with
      | some (t2, r4) => if r4 = [] then some (t1, t2) else none
      | none => none
    | _ => none

/-- Full anchored match of the single-zone regex digits[ab]?. -/
def zoneSingleMatch (l : List Char) : Option (List Char) :=
  match zoneToken l with
  | some (t, r) => if r = [] then some t else none
  | none => none

/-- Input cleaning of normalize_hardiness_zones: strip whitespace and stray
quotes. -/
def zonesClean (raw : String) : List Char :=
  pyStrip (pyStripChar '\'' (pyStripChar '"' (pyStrip raw.data)))

/-- Separator normalization of normalize_hardiness_zones. -/
def zonesCleanSep (l : List Char) : List Char :=
  replaceSub (" - ".data) ("-".data) (replaceSub (" to ".data) ("-".data) l)

def normalize_hardiness_zones (raw : String) : Option (List String) :=
  if zonesClean raw = [] then none
  else
    match zoneRangeMatch (zonesCleanSep (zonesClean raw)) with
    | some ts =>
      if (parseZoneEndpoint ts.1).1 ≤ (parseZoneEndpoint ts.2).1 ∧
         (parseZoneEndpoint ts.2).1 ≤ 13 then
        some (expand_zone_range (parseZoneEndpoint ts.1).1 (parseZoneEndpoint ts.1).2
          (parseZoneEndpoint ts.2).1 (parseZoneEndpoint ts.2).2)
      else
        (zoneSingleMatch (zonesCleanSep (zonesClean raw))).map
          (fun t => [String.mk (pyLowerL t)])
    | none =>
      (zoneSingleMatch (zonesCleanSep (zonesClean raw))).map
        (fun t => [String.mk (pyLowerL t)])

/-! ### Day counts -/

/-- normalize_days: a leading digits-hyphen-digits range is floor-averaged,
otherwise a leading integer is taken; anything else is null. -/
def normalize_days (raw : String) : Option ℤ :=
  let l := pyStrip raw.data
  match l.span Char.isDigit with
  | (d1, r) =>
    if d1 = [] then none
    else
      match r.dropWhile isWs with
      | '-' :: r2 =>
        match (r2.dropWhile isWs).span Char.isDigit with
        | (d2, _) =>
          if d2 = [] then some (digitsVal d1)
          else some (((digitsVal d1 + digitsVal d2) / 2 : ℕ) : ℤ)
      | _ => some (digitsVal d1)

/-! ### Measurements -/

/-- The unit alternatives of the measurement regex, in source order. Matching
is case-insensitive and the first alternative that is a prefix wins, exactly
as the regex alternation behaves here (nothing after the unit group can fail,
so no backtracking occurs). -/
def MEAS_UNITS : List (List Char) :=
  [['c', 'm'], ['m'], ['i', 'n', 'c', 'h', 'e', 's'], ['i', 'n', 'c', 'h'],
   ['i', 'n'], ['"'], ['\''], ['f', 'e', 'e', 't'], ['f', 't']]

def matchUnitAlt (l : List Char) : Option (List Char) :=
  MEAS_UNITS.find? (fun u => u.isPrefixOf (pyLowerL l))

structure MeasMatch where
  g1 : List Char
  g2 : Option (List Char)
  unit : Option (List Char)
deriving DecidableEq

/-- The measurement regex value[-value2] unit?, matched at the start of the
string. Group 1 is the maximal run of digits and dots; everything after it is
optional so the greedy run needs no backtracking. If a hyphen follows but no
digits-and-dots run follows the hyphen, the optional range group matches empty
and the position stays before the hyphen. The returned unit is the lowercase
alternative, which equals group(3).lower() since the alternatives are
lowercase and matching is case-insensitive. -/
def measMatch (l : List Char) : Option MeasMatch :=
  match l.span isDigDot with
  | (g1, r1) =>
    if g1 = [] then none
    else
      let r2 := r1.dropWhile isWs
      let (g2, r3) : Option (List Char) × List Char :=
        match r2 with
        | '-' :: rest =>
          match (rest.dropWhile isWs).span isDigDot with
          | (d, r) => if d = [] then (none, r2) else (some d, r)
        | _ => (none, r2)
      some ⟨g1, g2, matchUnitAlt (r3.dropWhile isWs)⟩

/-- parse_measurement_to_inches. The float() conversion of group 1 is guarded
by try/except ValueError; the conversion of group 2 is not, so a range whose
second operand has two dots raises an uncaught ValueError (.error). -/
def parse_measurement_to_inches (raw : String) (default_unit : String) :
    Except Unit (Option ℚ) :=
  let l := (pyStrip raw.data).map
    (fun c => if c = '’' ∨ c = '‘' then '\'' else c)
  let l := if (pyLowerL l).contains 'x'
           then pyStrip ((pyLowerL l).takeWhile (· ≠ 'x'))
           else l
  match measMatch l with
  | none => .ok none
  | some m =>
    match pyFloatDigits m.g1 with
    | none => .ok none
    | some val1 =>
      let val2? : Option ℚ :=
        match m.g2 with
        | none => some val1
        | some g => pyFloatDigits g
      match val2? with
      | none => .error ()
      | some val2 =>
        let avg := (val1 + val2) / 2
        let unit := pyRstripChar '.' (m.unit.getD [])
        if unit = ['c', 'm'] then .ok (some (roundTo 1 (avg / (254 / 100))))
        else if unit = ['m'] then .ok (some (roundTo 1 (avg * (393701 / 10000))))
        else if unit = ['i', 'n', 'c', 'h', 'e', 's'] ∨ unit = ['i', 'n', 'c', 'h'] ∨
                unit = ['i', 'n'] ∨ unit = ['"'] then .ok (some (roundTo 1 avg))
        else if unit = ['\''] ∨ unit = ['f', 'e', 'e', 't'] ∨ unit = ['f', 't'] then
          .ok (some (roundTo 1 (avg * 12)))
        else
          if default_unit = "cm" then
            if avg > 10 then .ok (some (roundTo 1 (avg / (254 / 100))))
            else .ok (some (roundTo 1 (avg / (254 / 100))))
          else .ok (some (roundTo 1 (avg * (393701 / 10000))))

def normalize_height_to_inches (raw : String) : Except Unit (Option ℚ) :=
  parse_measurement_to_inches raw "m"

def normalize_spacing_to_inches (raw : String) : Except Unit (Option ℚ) :=
  parse_measurement_to_inches raw "cm"

def normalize_depth_to_inches (raw : String) : Except Unit (Option ℚ) :=
  parse_measurement_to_inches raw "cm"

/-! ### Soil pH -/

/-- normalize_soil_ph. The inequality branches convert their captured token
with float() outside any try/except, so a token such as 6.5.5 after a
greater-than sign raises an uncaught ValueError (.error); the range branch is
guarded and the single-value branch catches ValueError and TypeError. -/
def normalize_soil_ph (raw : String) : Except Unit (Option (ℚ × ℚ)) :=
  let l := (pyStrip raw.data).map
    (fun c => if c = '–' ∨ c = '—' then '-' else c)
  match l with
  | c :: r =>
    if c = '>' ∨ c = '≥' then
      match ((r.dropWhile isWs).span isDigDot) with
      | (tok, _) =>
        if tok = [] then soilPhRest l
        else
          match pyFloatDigits tok with
          | none => .error ()
          | some v => .ok (some (v, v))
    else if c = '<' ∨ c = '≤' then
      match ((r.dropWhile isWs).span isDigDot) with
      | (tok, _) =>
        if tok = [] then soilPhRest l
        else
          match pyFloatDigits tok with
          | none => .error ()
          | some v => .ok (some (v, v))
    else soilPhRest l
  | [] => soilPhRest []
where
  /-- The hyphenated-range branch followed by the single-value branch. -/
  soilPhRest (l : List Char) : Except Unit (Option (ℚ × ℚ)) :=
    match l.span isDigDot with
    | (g1, r1) =>
      if g1 ≠ [] then
        match r1.dropWhile isWs with
        | '-' :: r2 =>
          match (r2.dropWhile isWs).span isDigDot with
          | (g2, _) =>
            if g2 ≠ [] then
              match pyFloatDigits g1, pyFloatDigits g2 with
              | some a, some b => .ok (some (a, b))
              | _, _ => .ok none
            else soilPhSingle l
        | _ => soilPhSingle l
      else soilPhSingle l
  soilPhSingle (l : List Char) : Except Unit (Option (ℚ × ℚ)) :=
    match pyFloatFull l with
    | some v => .ok (some (v, v))
    | none => .ok none

/-! ### Germination time -/

/-- The day/week/month unit group: returns the multiplier of the matched
alternative after rstrip of s and the dictionary lookup. -/
def germUnitMult (l : List Char) : ℕ :=
  if ['d', 'a', 'y'].isPrefixOf l then 1
  else if ['w', 'e', 'e', 'k'].isPrefixOf l then 7
  else if ['m', 'o', 'n', 't', 'h'].isPrefixOf l then 30
  else 1

/-- normalize_germination_time. Both branches convert captured tokens with
float() outside any try/except, so a token with two dots raises (.error). -/
def normalize_germination_time (raw : String) : Except Unit (Option (ℤ × ℤ)) :=
  let l := pyLowerL (pyStrip raw.data)
  match l.span isDigDot with
  | (g1, r1) =>
    if g1 = [] then .ok none
    else
      match r1.dropWhile isWs with
      | '-' :: r2 =>
        match (r2.dropWhile isWs).span isDigDot with
        | (g2, r3) =>
          if g2 = [] then germSingle g1 r1
          else
            match pyFloatDigits g1, pyFloatDigits g2 with
            | some v1, some v2 =>
              let mult := germUnitMult (r3.dropWhile isWs)
              .ok (some (pyTrunc (v1 * mult), pyTrunc (v2 * mult)))
            | _, _ => .error ()
      | _ => germSingle g1 r1
where
  /-- The single-value regex branch N unit?. -/
  germSingle (g1 r1 : List Char) : Except Unit (Option (ℤ × ℤ)) :=
    match pyFloatDigits g1 with
    | some v =>
      let mult := germUnitMult (r1.dropWhile isWs)
      let d := pyTrunc (v * mult)
      .ok (some (d, d))
    | none => .error ()

/-! ### Germination temperature -/

/-- Match of the temperature pattern number -? number? degree-sign? letter at
one position. The trailing letter is f or c case-insensitively. Group 1 is the
maximal digits-and-dots run; all middle elements are optional and cannot eat a
letter, so greedy matching needs no backtracking. -/
def tempMatchAt (letter : Char) (l : List Char) :
    Option (List Char × Option (List Char)) :=
  match l.span isDigDot with
  | (g1, r1) =>
    if g1 = [] then none
    else
      let r2 := r1.dropWhile isWs
      let r3 := match r2 with
                | '-' :: rest => rest.dropWhile isWs
                | _ => r2
      match r3.span isDigDot with
      | (g2d, r4) =>
        let g2 : Option (List Char) := if g2d = [] then none else some g2d
        let r5 := r4.dropWhile isWs
        let r6 := match r5 with
                  | '°' :: rest => rest.dropWhile isWs
                  | _ => r5
        match r6 with
        | c :: _ => if c.toLower = letter then some (g1, g2) else none
        | [] => none

/-- re.search: the leftmost position at which the pattern matches. -/
def tempSearch (letter : Char) : List Char → Option (List Char × Option (List Char))
  | [] => none
  | c :: rest =>
    match tempMatchAt letter (c :: rest) with
    | some g => some g
    | none => tempSearch letter rest

/-- normalize_germination_temp: prefer a Fahrenheit match, fall back to a
Celsius match, then to a bare leading numeric range assumed Celsius. All
float() conversions here are outside any try/except, so two-dotted tokens
raise (.error). -/
def normalize_germination_temp (raw : String) : Except Unit (Option (ℚ × ℚ)) :=
  let l := pyStrip raw.data
  match tempSearch 'f' l with
  | some (g1, g2) =>
    match pyFloatDigits g1 with
    | none => .error ()
    | some lo =>
      match g2 with
      | none => .ok (some (roundTo 1 lo, roundTo 1 lo))
      | some g =>
        match pyFloatDigits g with
        | none => .error ()
        | some hi => .ok (some (roundTo 1 lo, roundTo 1 hi))
  | none =>
    match tempSearch 'c' l with
    | some (g1, g2) =>
      match pyFloatDigits g1 with
      | none => .error ()
      | some loC =>
        match g2 with
        | none => .ok (some (roundTo 1 (loC * 9 / 5 + 32), roundTo 1 (loC * 9 / 5 + 32)))
        | some g =>
          match pyFloatDigits g with
          | none => .error ()
          | some hiC => .ok (some (roundTo 1 (loC * 9 / 5 + 32), roundTo 1 (hiC * 9 / 5 + 32)))
    | none =>
      match l.span isDigDot with
      | (g1, r1) =>
        if g1 = [] then .ok none
        else
          match r1.dropWhile isWs with
          | '-' :: r2 =>
            match (r2.dropWhile isWs).span isDigDot with
            | (g2, _) =>
              if g2 = [] then .ok none
              else
                match pyFloatDigits g1, pyFloatDigits g2 with
                | some loC, some hiC =>
                  .ok (some (roundTo 1 (loC * 9 / 5 + 32), roundTo 1 (hiC * 9 / 5 + 32)))
                | _, _ => .error ()
          | _ => .ok none

/-! ### Booleans, integers, lists -/

def normalize_bool (raw : String) : Option Bool :=
  let low := pyStripLower raw
  if low = "true" ∨ low = "yes" then some true
  else if low = "false" ∨ low = "no" then some false
  else none

/-- normalize_int: a leading optional-sign integer. -/
def normalize_int (raw : String) : Option ℤ :=
  let l := pyStrip raw.data
  match l with
  | '-' :: r =>
    match r.span Char.isDigit with
    | (d, _) => if d = [] then none else some (-(digitsVal d : ℤ))
  | _ =>
    match l.span Char.isDigit with
    | (d, _) => if d = [] then none else some (digitsVal d : ℤ)

def splitOnComma (l : List Char) : List (List Char) := l.splitOn ','

def normalize_list (raw : String) : Option (List String) :=
  let items := (splitOnComma raw.data).filterMap (fun seg =>
    let t := pyStrip seg
    if t = [] then none else some (String.mk t))
  if items = [] then none else some items

/-! ## Merge Engine (enrich_plants in app/tasks/enrich_plants.py)

Column values are modelled by an inductive Value covering the Python types the
engine manipulates: strings, ints, floats (as rationals), booleans and lists
of strings. SQL NULL / Python None is Option.none around a Value. -/

inductive Value where
  | str (s : String)
  | int (n : ℤ)
  | rat (q : ℚ)
  | bool (b : Bool)
  | list (l : List String)
deriving DecidableEq, Repr

/-- Numeric view: Python treats bool as an int subtype, and == compares int
and float by value. -/
def Value.toNum : Value → Option ℚ
  | .int n => some (n : ℚ)
  | .rat q => some q
  | .bool b => some (if b then 1 else 0)
  | _ => none

/-- Python isinstance(v, int): true for ints and bools. -/
def Value.isIntKind : Value → Bool
  | .int _ => true
  | .bool _ => true
  | _ => false

/-- Python == on the value domain. -/
def pyEq (a b : Value) : Bool :=
  match a.toNum, b.toNum with
  | some x, some y => x == y
  | _, _ =>
    match a, b with
    | .str s, .str t => s == t
    | .list l, .list m => l == m
    | _, _ => false

/-- Python == where either side may be None. -/
def pyOptEq : Option Value → Option Value → Bool
  | none, none => true
  | some a, some b => pyEq a b
  | _, _ => false

/-- Python truthiness. -/
def Value.truthy : Value → Bool
  | .str s => s ≠ ""
  | .int n => n ≠ 0
  | .rat q => q ≠ 0
  | .bool b => b
  | .list l => l ≠ []

/-- A Python function raw-string to value-or-None that may raise. -/
abbrev PyFun := String → Except Unit (Option Value)

def pureN (f : String → Option Value) : PyFun := fun r => .ok (f r)

def soilPhMin (raw : String) : Except Unit (Option Value) :=
  (normalize_soil_ph raw).map (fun r => r.map (fun p => .rat p.1))

def soilPhMax (raw : String) : Except Unit (Option Value) :=
  (normalize_soil_ph raw).map (fun r => r.map (fun p => .rat p.2))

def germDaysMin (raw : String) : Except Unit (Option Value) :=
  (normalize_germination_time raw).map (fun r => r.map (fun p => .int p.1))

def germDaysMax (raw : String) : Except Unit (Option Value) :=
  (normalize_germination_time raw).map (fun r => r.map (fun p => .int p.2))

def germTempMin (raw : String) : Except Unit (Option Value) :=
  (normalize_germination_temp raw).map (fun r => r.map (fun p => .rat p.1))

def germTempMax (raw : String) : Except Unit (Option Value) :=
  (normalize_germination_temp raw).map (fun r => r.map (fun p => .rat p.2))

/-- The NORMALIZERS registry, keyed by canonical field name. -/
def NORMALIZERS (field : String) : Option PyFun :=
  if field = "water_needs" then some (pureN (fun r => (normalize_water r).map .str))
  else if field = "sun_requirement" then some (pureN (fun r => (normalize_sun r).map .str))
  else if field = "plant_type" then some (pureN (fun r => (normalize_plant_type r).map .str))
  else if field = "hardiness_zones" then
    some (pureN (fun r => (normalize_hardiness_zones r).map .list))
  else if field = "days_to_maturity" ∨ field = "days_to_harvest" then
    some (pureN (fun r => (normalize_days r).map .int))
  else if field = "height_inches" ∨ field = "width_inches" then
    some (fun r => (normalize_height_to_inches r).map (fun v => v.map .rat))
  else if field = "spacing_inches" then
    some (fun r => (normalize_spacing_to_inches r).map (fun v => v.map .rat))
  else if field = "planting_depth_inches" then
    some (fun r => (normalize_depth_to_inches r).map (fun v => v.map .rat))
  else if field = "soil_ph_min" then some soilPhMin
  else if field = "soil_ph_max" then some soilPhMax
  else if field = "germination_days_min" then some germDaysMin
  else if field = "germination_days_max" then some germDaysMax
  else if field = "germination_temp_min_f" then some germTempMin
  else if field = "germination_temp_max_f" then some germTempMax
  else if field = "edible" ∨ field = "drought_resistant" ∨ field = "nitrogen_fixing" then
    some (pureN (fun r => (normalize_bool r).map .bool))
  else if field = "start_indoors_weeks" ∨ field = "start_outdoors_weeks" then
    some (pureN (fun r => (normalize_int r).map .int))
  else if field = "common_pests" ∨ field = "common_diseases" then
    some (pureN (fun r => (normalize_list r).map .list))
  else none

/-- SOURCE_FIELD_MAP: canonical field to per-source column, in source order. -/
def SOURCE_FIELD_MAP : List (String × List (String × String)) := [
  ("common_name", [("perenual", "common_name"), ("permapeople", "common_name")]),
  ("scientific_name", [("perenual", "scientific_name"), ("permapeople", "scientific_name")]),
  ("image_url", [("perenual", "image_url"), ("permapeople", "image_url")]),
  ("description", [("permapeople", "description")]),
  ("plant_type", [("permapeople", "life_cycle")]),
  ("water_needs", [("permapeople", "water_requirement")]),
  ("sun_requirement", [("permapeople", "light_requirement")]),
  ("hardiness_zones", [("permapeople", "hardiness_zone")]),
  ("days_to_maturity", [("permapeople", "days_to_maturity")]),
  ("spacing_inches", [("permapeople", "spacing")]),
  ("planting_depth_inches", [("permapeople", "seed_planting_depth")]),
  ("common_pests", [("permapeople", "pests")]),
  ("common_diseases", [("permapeople", "diseases")]),
  ("height_inches", [("permapeople", "height")]),
  ("width_inches", [("permapeople", "width")]),
  ("soil_type", [("permapeople", "soil_type")]),
  ("soil_ph_min", [("permapeople", "soil_ph")]),
  ("soil_ph_max", [("permapeople", "soil_ph")]),
  ("growth_rate", [("permapeople", "growth")]),
  ("life_cycle", [("permapeople", "life_cycle")]),
  ("drought_resistant", [("permapeople", "drought_resistant")]),
  ("days_to_harvest", [("permapeople", "days_to_harvest")]),
  ("propagation_method", [("permapeople", "propagation_method")]),
  ("germination_days_min", [("permapeople", "germination_time")]),
  ("germination_days_max", [("permapeople", "germination_time")]),
  ("germination_temp_min_f", [("permapeople", "germination_temperature")]),
  ("germination_temp_max_f", [("permapeople", "germination_temperature")]),
  ("sow_outdoors", [("permapeople", "sow_outdoors")]),
  ("sow_indoors", [("permapeople", "sow_indoors")]),
  ("start_indoors_weeks", [("permapeople", "start_indoors_weeks")]),
  ("start_outdoors_weeks", [("permapeople", "start_outdoors_weeks")]),
  ("plant_transplant", [("permapeople", "plant_transplant")]),
  ("plant_cuttings", [("permapeople", "plant_cuttings")]),
  ("plant_division", [("permapeople", "plant_division")]),
  ("native_to", [("permapeople", "native_to")]),
  ("habitat", [("permapeople", "habitat")]),
  ("family", [("permapeople", "family")]),
  ("genus", [("permapeople", "genus")]),
  ("edible", [("permapeople", "edible")]),
  ("edible_parts", [("permapeople", "edible_parts")]),
  ("edible_uses", [("permapeople", "edible_uses")]),
  ("medicinal", [("permapeople", "medicinal")]),
  ("medicinal_parts", [("permapeople", "medicinal_parts")]),
  ("utility", [("permapeople", "utility")]),
  ("warning", [("permapeople", "warning")]),
  ("pollination", [("permapeople", "pollination")]),
  ("nitrogen_fixing", [("permapeople", "nitrogen_fixing")]),
  ("root_type", [("permapeople", "root_type")]),
  ("root_depth", [("permapeople", "root_depth")]),
  ("wikipedia_url", [("permapeople", "wikipedia_url")]),
  ("pfaf_url", [("permapeople", "pfaf_url")]),
  ("powo_url", [("permapeople", "powo_url")])]

def sourceFieldLookup (field : String) : List (String × String) :=
  (SOURCE_FIELD_MAP.lookup field).getD []

/-! ### Strategies -/

/-- Values resolved per source: a dict source-name to possibly-None value. -/
abbrev SrcVals := List (String × Option Value)

def srcGet (m : SrcVals) (s : String) : Option Value := (m.lookup s).join

def apply_priority (sources : SrcVals) (priority : List String) : Option Value :=
  match priority with
  | [] => none
  | s :: rest =>
    match srcGet sources s with
    | some v => some v
    | none => apply_priority sources rest

def unionAddItems (acc : List String × List String) (items : List String) :
    List String × List String :=
  items.foldl (fun (acc : List String × List String) item =>
    let low := pyStripLower item
    if low ∈ acc.2 then acc
    else (acc.1 ++ [pyStripS item], acc.2 ++ [low])) acc

def apply_union (sources : SrcVals) (priority : List String) : Option Value :=
  let r := priority.foldl (fun (acc : List String × List String) src =>
    match srcGet sources src with
    | some (.list items) => if items ≠ [] then unionAddItems acc items else acc
    | _ => acc) ([], [])
  if r.1 = [] then none else some (.list r.1)

def apply_longest (sources : SrcVals) (priority : List String) : Option Value :=
  let best := priority.foldl (fun (best : Option String) src =>
    match srcGet sources src with
    | some (.str v) =>
      if v ≠ "" then
        match best with
        | none => some v
        | some b => if v.length > b.length then some v else best
      else best
    | _ => best) none
  best.map .str

/-- apply_average: sum of the non-None values divided by their count. A
non-numeric value makes the Python sum() raise TypeError (.error). The result
is an int when every contributing value is an int (bools included), else a
float rounded to two decimals. -/
def apply_average (sources : SrcVals) (priority : List String) :
    Except Unit (Option Value) :=
  let values := priority.filterMap (fun s => srcGet sources s)
  if values = [] then .ok none
  else if values.any (fun v => v.toNum = none) then .error ()
  else
    let nums := values.filterMap Value.toNum
    let avg := nums.sum / (nums.length : ℚ)
    if values.all Value.isIntKind then .ok (some (.int (roundHalfEven avg)))
    else .ok (some (.rat (roundTo 2 avg)))

/-- STRATEGY_FN.get(strategy, apply_priority). -/
def applyStrategy (strategy : String) (sources : SrcVals) (priority : List String) :
    Except Unit (Option Value) :=
  if strategy = "union" then .ok (apply_union sources priority)
  else if strategy = "longest" then .ok (apply_longest sources priority)
  else if strategy = "average" then apply_average sources priority
  else .ok (apply_priority sources priority)

/-! ### Per-record merge -/

/-- One EnrichmentRule row: the strategy tag and the configured priority list
(nullable in the database). -/
structure Rule where
  strategy : String
  source_priority : Option (List String)
deriving DecidableEq

/-- A canonical plant as the merge engine sees it: attribute map for the
enrichable columns plus the data_sources array (SQL NULL modelled as []). -/
structure MPlant where
  fields : List (String × Option Value)
  data_sources : List String
deriving DecidableEq

/-- getattr(plant, f): the enrichable fields all exist on the model, so a
missing entry reads as NULL. -/
def getF (p : MPlant) (f : String) : Option Value := (p.fields.lookup f).join

def updateA : List (String × Option Value) → String → Option Value →
    List (String × Option Value)
  | [], f, v => [(f, v)]
  | (g, w) :: rest, f, v =>
    if g = f then (f, v) :: rest else (g, w) :: updateA rest f v

/-- setattr(plant, f, v). -/
def setF (p : MPlant) (f : String) (v : Value) : MPlant :=
  { p with fields := updateA p.fields f (some v) }

/-- A source row (perenual_plants / permapeople_plants): column map; a column
missing from the map reads as None, as getattr(row, col, None) does. -/
abbrev SourceRow := List (String × Option Value)

def rowGet (r : SourceRow) (col : String) : Option Value := (r.lookup col).join

/-- Collect the raw per-source values of one field (lines 691-700): only
sources whose row is linked and whose column is non-null contribute. -/
def fieldRaw (pp per : Option SourceRow) (srcs : List (String × String)) :
    List (String × Value) :=
  srcs.foldl (fun acc sc =>
    match sc with
    | (source_name, source_col) =>
      if source_name = "permapeople" then
        match pp with
        | some row =>
          match rowGet row source_col with
          | some raw => acc ++ [(source_name, raw)]
          | none => acc
        | none => acc
      else if source_name = "perenual" then
        match per with
        | some row =>
          match rowGet row source_col with
          | some raw => acc ++ [(source_name, raw)]
          | none => acc
        | none => acc
      else acc) []

/-- The normalization loop over raw values (lines 706-719). A string raw value
goes through the normalizer (whose exception propagates); a normalizer result
of None for a truthy raw value is recorded in the unmapped histogram (report
only, not modelled) and excluded; otherwise the possibly-None result is kept.
Without a registered normalizer the raw value passes through. -/
def buildNormalized (nrm : Option PyFun) :
    List (String × Value) → Except Unit SrcVals
  | [] => .ok []
  | (src, raw) :: rest =>
    match nrm with
    | some f =>
      let valE : Except Unit (Option Value) :=
        match raw with
        | .str s => f s
        | _ => .ok (some raw)
      match valE with
      | .error e => .error e
      | .ok val =>
        if val = none ∧ raw.truthy then buildNormalized nrm rest
        else
          match buildNormalized nrm rest with
          | .error e => .error e
          | .ok t => .ok ((src, val) :: t)
    | none =>
      match buildNormalized nrm rest with
      | .error e => .error e
      | .ok t => .ok ((src, some raw) :: t)

/-- The normalized candidate dict of one field, None when the field is not in
SOURCE_FIELD_MAP or no source supplies it. -/
def fieldCandidates (pp per : Option SourceRow) (field : String) :
    Except Unit SrcVals :=
  buildNormalized (NORMALIZERS field) (fieldRaw pp per (sourceFieldLookup field))

/-- rule.source_priority or the default (Python or: None and [] both fall
back). -/
def rulePriority (rule : Rule) : List String :=
  match rule.source_priority with
  | some l => if l = [] then ["permapeople", "perenual"] else l
  | none => ["permapeople", "perenual"]

/-- The resolved value of one field, erroring when normalization or the
strategy raises. -/
def fieldResolved (pp per : Option SourceRow) (field : String) (rule : Rule) :
    Except Unit (Option Value) :=
  match fieldCandidates pp per field with
  | .error e => .error e
  | .ok normalized =>
    if normalized = [] then .ok none
    else applyStrategy rule.strategy normalized (rulePriority rule)

/-- In-flight state of one record inside the ruled-field loop. -/
structure FState where
  plant : MPlant
  changed : Bool
  sources_used : List String
deriving DecidableEq

def setInsert (s : List String) (x : String) : List String :=
  if x ∈ s then s else s ++ [x]

def setOfList (l : List String) : List String := l.foldl setInsert []

def setEqB (a b : List String) : Bool :=
  a.all (fun x => x ∈ b) && b.all (fun x => x ∈ a)

def lexLeChars : List Char → List Char → Bool
  | [], _ => true
  | _ :: _, [] => false
  | a :: as, b :: bs =>
    if a.val < b.val then true
    else if b.val < a.val then false
    else lexLeChars as bs

def strLeB (a b : String) : Bool := lexLeChars a.data b.data

def insertStr (a : String) : List String → List String
  | [] => [a]
  | b :: t => if strLeB a b then a :: b :: t else b :: insertStr a t

def sortStr (l : List String) : List String := l.foldr insertStr []

/-- One iteration of the ruled-field loop (lines 685-738). The Bool result
marks an uncaught per-field exception, which aborts the response for this
record. Writing happens only when the resolved value is non-None and
Python-unequal to the stored value; only then are the candidate sources added
to sources_used. -/
def stepField (pp per : Option SourceRow) (st : FState) (entry : String × Rule) :
    FState × Bool :=
  if sourceFieldLookup entry.1 = [] then (st, false)
  else if fieldRaw pp per (sourceFieldLookup entry.1) = [] then (st, false)
  else
    match fieldCandidates pp per entry.1 with
    | .error _ => (st, true)
    | .ok normalized =>
      if normalized = [] then (st, false)
      else
        match applyStrategy entry.2.strategy normalized (rulePriority entry.2) with
        | .error _ => (st, true)
        | .ok resolved =>
          match resolved with
          | some v =>
            if pyOptEq (some v) (getF st.plant entry.1) then (st, false)
            else
              ({ plant := setF st.plant entry.1 v,
                 changed := true,
                 sources_used :=
                   normalized.foldl (fun s sv => setInsert s sv.1) st.sources_used },
               false)
          | none => (st, false)

/-- The ruled-field loop; stops at the first uncaught exception. -/
def foldFields (pp per : Option SourceRow) :
    List (String × Rule) → FState → FState × Bool
  | [], st => (st, false)
  | e :: rest, st =>
    match stepField pp per st e with
    | (st2, true) => (st2, true)
    | (st2, false) => foldFields pp per rest st2

/-- Per-record classification as counted into the run stats. -/
inductive Outcome where
  | skipped
  | enriched
  | unchanged
  | procError
deriving DecidableEq, Repr

/-- One canonical record through the merge engine (lines 676-753): skip when
no source row is linked; process every ruled field; on an uncaught exception
keep the mutations made so far and classify as an error; otherwise update
data_sources when the used-source set changed and classify enriched or
unchanged by the changed flag. -/
def processRecord (rules : List (String × Rule)) (plant : MPlant)
    (pp per : Option SourceRow) : MPlant × Outcome :=
  if pp = none ∧ per = none then (plant, .skipped)
  else
    match foldFields pp per rules ⟨plant, false, setOfList plant.data_sources⟩ with
    | (st, true) => (st.plant, .procError)
    | (st, false) =>
      let plant2 :=
        if setEqB st.sources_used (setOfList st.plant.data_sources) then st.plant
        else { st.plant with data_sources := sortStr st.sources_used }
      (plant2, if st.changed then .enriched else .unchanged)

/-! ### Batch loop and run lifecycle -/

/-- A joined row of the batch query: the plant and its optional source rows. -/
structure ERow where
  plant : MPlant
  pp : Option SourceRow
  per : Option SourceRow
deriving DecidableEq

structure Stats where
  enriched : ℕ
  unchanged : ℕ
  skipped : ℕ
  errors : ℕ
deriving DecidableEq

def stepRecordRow (rules : List (String × Rule)) (acc : List ERow × Stats)
    (row : ERow) : List ERow × Stats :=
  match processRecord rules row.plant row.pp row.per with
  | (p2, o) =>
    (acc.1 ++ [{ row with plant := p2 }],
     match o with
     | .skipped => { acc.2 with skipped := acc.2.skipped + 1 }
     | .enriched => { acc.2 with enriched := acc.2.enriched + 1 }
     | .unchanged => { acc.2 with unchanged := acc.2.unchanged + 1 }
     | .procError => { acc.2 with errors := acc.2.errors + 1 })

def BATCH_SIZE : ℕ := 500

/-- The LIMIT/OFFSET batch loop of enrich_plants (lines 659-764): fetch a
batch, process each joined row, commit, advance the offset until a batch
comes back empty. -/
def enrichLoop (rules : List (String × Rule)) (rows : List ERow) (offset : ℕ)
    (acc : List ERow) (stats : Stats) : List ERow × Stats :=
  let batch := (rows.drop offset).take BATCH_SIZE
  if h : batch = [] then (acc, stats)
  else
    let r := batch.foldl (stepRecordRow rules) (acc, stats)
    enrichLoop rules rows (offset + BATCH_SIZE) r.1 r.2
termination_by rows.length - offset
decreasing_by
  have hlt : offset < rows.length := by
    by_contra hge
    exact h (by
      have hd : rows.drop offset = [] := List.drop_eq_nil_of_le (by omega)
      simp [batch, hd])
  have hbs : 0 < BATCH_SIZE := by decide
  omega

/-- A DataSourceRun row (app/models/data_source_run.py). -/
structure DRun where
  source : String
  status : String
  started_at : ℤ
  finished_at : Option ℤ
  new_species : ℕ
  updated : ℕ
  unchanged : ℕ
  skipped : ℕ
  errors : ℕ
  triggered_by : Option String
deriving DecidableEq

/-- is_source_running (app/tasks/fetch_utils.py lines 81-93): a running run
for the source started within the staleness threshold of two hours. -/
def is_source_running (runs : List DRun) (source : String) (now : ℤ) : Bool :=
  runs.any (fun r =>
    r.source == source && r.status == "running" && now - 7200 ≤ r.started_at)

structure EnrichDB where
  druns : List DRun
  rows : List ERow
deriving DecidableEq

/-- Top level of enrich_plants: the concurrency guard, the immediately
committed running run, the batch loop, and the completed run with its
counters. Coverage queries and the report email only feed the notification
body and are not modelled. -/
def enrich_plants (rules : List (String × Rule)) (triggered_by : String)
    (now : ℤ) (db : EnrichDB) : EnrichDB :=
  if is_source_running db.druns "enrichment" now then db
  else
    match enrichLoop rules db.rows 0 [] ⟨0, 0, 0, 0⟩ with
    | (rows2, stats) =>
      let run : DRun :=
        { source := "enrichment", status := "completed", started_at := now,
          finished_at := some now, new_species := stats.enriched, updated := 0,
          unchanged := stats.unchanged, skipped := stats.skipped,
          errors := stats.errors, triggered_by := some triggered_by }
      { druns := run :: db.druns, rows := rows2 }

/-! ## Harvest Coordinator: perenual (app/tasks/fetch_perenual.py)

Sequential invocation model: the database is passed explicitly, external
behaviour is an upstream oracle per page, and side effects (external calls,
scheduled retries, notification emails identified by subject) are collected
in order. Every mutation path of the source commits before returning, so one
database state suffices. -/

/-- A SeederRun row (app/models/logs.py). -/
structure PRun where
  status : String
  current_page : ℕ
  total_pages : Option ℕ
  records_synced : ℕ
  requests_used : ℕ
  started_at : ℤ
  finished_at : Option ℤ
  error_message : Option String
deriving DecidableEq

/-- A canonical plants row as touched by the harvesters. -/
structure CPlant where
  id : ℕ
  common_name : String
  scientific_name : Option String
  image_url : Option String
  source : Option String
  external_id : Option String
  is_user_defined : Bool
  data_sources : List String
deriving DecidableEq

/-- A perenual_plants source row. -/
structure PerenualRow where
  perenual_id : ℕ
  plant_id : ℕ
  common_name : String
  scientific_name : Option String
  image_url : Option String
deriving DecidableEq

/-- The state fetch_perenual reads and writes. Runs are kept most recent
first: every insertion happens at now, which is never earlier than any
existing started_at, so head? realises ORDER BY started_at DESC LIMIT 1. -/
structure PerDB where
  runs : List PRun
  plants : List CPlant
  prows : List PerenualRow
  nextPlantId : ℕ
deriving DecidableEq

/-- The scientific_name field of a species payload: a list, a string, or
absent. -/
inductive Sci where
  | null
  | str (s : String)
  | list (l : List String)
deriving DecidableEq

/-- One species item of a list page. -/
structure Species where
  id : Option ℕ
  common_name : Option String
  scientific_name : Sci
  default_image : Option (Option String × Option String)
deriving DecidableEq

/-- One parsed list-page body: the data array and the optional last_page. -/
structure PageData where
  data : List Species
  last_page : Option ℕ
deriving DecidableEq

/-- Outcome of one fetch_species_list call: a parsed page or a
RateLimitError carrying its message. -/
inductive FetchResult where
  | ok (p : PageData)
  | rateLimited (msg : String)

/-- Observable actions of one invocation, in order. -/
inductive Eff where
  | call (page : ℕ)
  | schedule (retry_count : ℕ) (hour : ℕ)
  | email (subject : String)
deriving DecidableEq, Repr

def Eff.isCall : Eff → Bool
  | .call _ => true
  | _ => false

def Eff.isEmail : Eff → Bool
  | .email _ => true
  | _ => false

def REQUEST_BUDGET : ℕ := 95

def CRON_HOUR : ℕ := 4

def RETRY_HOURS_UTC : List ℕ := [6, 9, 12]

def STALE_SECONDS : ℤ := 7200

/-- _get_active_run: a running SeederRun started within the last two hours
exists. -/
def getActiveRun (db : PerDB) (now : ℤ) : Bool :=
  db.runs.any (fun r => r.status == "running" && now - STALE_SECONDS ≤ r.started_at)

/-- _get_last_run: most recent run by started_at. -/
def getLastRun (db : PerDB) : Option PRun := db.runs.head?

/-- The guard of lines 300-303: the most recent run completed the catalog. -/
def lastComplete (db : PerDB) : Bool :=
  match getLastRun db with
  | some l => l.status == "complete"
  | none => false

/-- The resume point: one past the last committed page of the most recent
run, or page 1 for a fresh database. -/
def startPage (db : PerDB) : ℕ :=
  match getLastRun db with
  | some l => l.current_page + 1
  | none => 1

/-- _scientific_name field helper. -/
def sciNameOf : Sci → Option String
  | .list (x :: _) => some x
  | .list [] => none
  | .str s => some s
  | .null => none

def pyOrStr (a b : Option String) : Option String :=
  match a with
  | some s => if s = "" then b else some s
  | none => b

/-- _image_url field helper. -/
def imageUrlOf (sp : Species) : Option String :=
  match sp.default_image with
  | some (orig, reg) => pyOrStr orig reg
  | none => none

/-- species.get("common_name") or "Unknown". -/
def commonNameOf (sp : Species) : String :=
  match sp.common_name with
  | some s => if s = "" then "Unknown" else s
  | none => "Unknown"

/-- find_plant_by_scientific_name (app/tasks/fetch_utils.py lines 43-48):
first canonical plant whose scientific_name matches case-insensitively; a
NULL scientific_name never matches. -/
def find_plant_by_scientific_name (plants : List CPlant) (sci : String) :
    Option CPlant :=
  plants.find? (fun p =>
    match p.scientific_name with
    | some s => pyLower s == pyLower sci
    | none => false)

/-- Per-item handling of fetch_perenual (lines 367-407): skip items without
an id or already present as a source row; otherwise match the canonical table
by scientific name, creating a stub canonical row first when no match, then
insert the linked source row. Returns the page_synced increment. -/
def processSpecies (db : PerDB) (sp : Species) : PerDB × ℕ :=
  match sp.id with
  | none => (db, 0)
  | some sid =>
    if db.prows.any (fun r => r.perenual_id == sid) then (db, 0)
    else
      let common_name := commonNameOf sp
      let sci := sciNameOf sp.scientific_name
      let img := imageUrlOf sp
      let plantM :=
        match sci with
        | some s => find_plant_by_scientific_name db.plants s
        | none => none
      match plantM with
      | some plant =>
        let prow : PerenualRow := ⟨sid, plant.id, common_name, sci, img⟩
        ({ db with prows := db.prows ++ [prow] }, 1)
      | none =>
        let plant : CPlant :=
          ⟨db.nextPlantId, common_name, sci, img, some "perenual",
           some (toString sid), false, ["perenual"]⟩
        let prow : PerenualRow := ⟨sid, plant.id, common_name, sci, img⟩
        ({ db with plants := db.plants ++ [plant],
                   prows := db.prows ++ [prow],
                   nextPlantId := db.nextPlantId + 1 }, 1)

/-- How the page loop ended. -/
inductive LoopExit where
  | budget
  | complete
  | rateLimit (msg : String)
deriving DecidableEq

/-- The while loop of fetch_perenual (lines 326-423). The fuel argument only
bounds recursion; each non-final iteration increments requests_used, so fuel
budget + 1 is never exhausted (the fuel-out arm coincides with the budget
break for uniformity). Returns the database, the run, the page the loop
stopped at, the effects in order, and the exit reason. -/
def pageLoop (budget : ℕ) (upstream : ℕ → FetchResult) :
    ℕ → PerDB → PRun → ℕ → PerDB × PRun × ℕ × List Eff × LoopExit
  | 0, db, run, page => (db, run, page, [], .budget)
  | fuel + 1, db, run, page =>
    if budget ≤ run.requests_used then (db, run, page, [], .budget)
    else
      match upstream page with
      | .rateLimited msg => (db, run, page, [.call page], .rateLimit msg)
      | .ok pd =>
        let run := { run with requests_used := run.requests_used + 1 }
        let run := if run.total_pages = none
                   then { run with total_pages := pd.last_page }
                   else run
        if pd.data = [] then (db, run, page, [.call page], .complete)
        else
          let folded := pd.data.foldl
            (fun (acc : PerDB × ℕ) sp =>
              let st := processSpecies acc.1 sp
              (st.1, acc.2 + st.2)) (db, 0)
          let run := { run with current_page := page,
                                records_synced := run.records_synced + folded.2 }
          let lp := pd.last_page.getD 1
          if lp ≤ page then (folded.1, run, page, [.call page], .complete)
          else
            let rest := pageLoop budget upstream fuel folded.1 run (page + 1)
            (rest.1, rest.2.1, rest.2.2.1, .call page :: rest.2.2.2.1, rest.2.2.2.2)

/-- _handle_quota_not_reset (lines 196-259): with a worker context and
retries remaining, enqueue the next attempt at the next preset hour with an
incremented retry counter and send nothing; on the final retry, without a
worker context, or when enqueueing raises, send the quota-not-reset email. -/
def handleQuotaNotReset (hasRedis enqueueOk : Bool) (retry_count : ℕ) : List Eff :=
  if hasRedis ∧ retry_count < RETRY_HOURS_UTC.length then
    if enqueueOk then [.schedule (retry_count + 1) (RETRY_HOURS_UTC.getD retry_count 0)]
    else [.email "LoamBase Perenual Fetch — Quota Not Reset"]
  else [.email "LoamBase Perenual Fetch — Quota Not Reset"]

/-- fetch_perenual (lines 278-453). budget stands for the module constant
_REQUEST_BUDGET; hasRedis and enqueueOk describe ctx.get("redis") and whether
redis.enqueue_job succeeds. -/
def fetch_perenual (budget : ℕ) (hasRedis enqueueOk : Bool) (retry_count : ℕ)
    (now : ℤ) (upstream : ℕ → FetchResult) (db : PerDB) : PerDB × List Eff :=
  if getActiveRun db now then (db, [])
  else if lastComplete db then (db, [])
  else
    let start_page := startPage db
    let run0 : PRun :=
      { status := "running", current_page := start_page - 1, total_pages := none,
        records_synced := 0, requests_used := 0, started_at := now,
        finished_at := none, error_message := none }
    let r := pageLoop budget upstream (budget + 1) db run0 start_page
    let db1 := r.1
    let run1 := r.2.1
    let page1 := r.2.2.1
    let effs := r.2.2.2.1
    match r.2.2.2.2 with
    | .rateLimit msg =>
      let quota : Bool := run1.requests_used == 0
      let emsg : String :=
        if quota then
          "Quota not reset at " ++ pad2 CRON_HOUR ++ ":00 UTC (page " ++
            toString page1 ++ ")"
        else
          "Rate limited on page " ++ toString page1 ++ ": " ++ msg
      let runF : PRun :=
        { run1 with
            status := "failed"
            error_message := some emsg
            finished_at := some now }
      let notif :=
        if quota then handleQuotaNotReset hasRedis enqueueOk retry_count
        else [.email "LoamBase Perenual Fetch — Daily Run Complete"]
      ({ db1 with runs := runF :: db1.runs }, effs ++ notif)
    | .complete =>
      let runF : PRun := { run1 with status := "complete", finished_at := some now }
      ({ db1 with runs := runF :: db1.runs },
       effs ++ [.email "LoamBase Perenual Fetch Complete"])
    | .budget =>
      let emsg : String := "Daily budget reached (" ++ toString budget ++ " requests)"
      let runF : PRun :=
        { run1 with
            status := "failed"
            error_message := some emsg
            finished_at := some now }
      ({ db1 with runs := runF :: db1.runs },
       effs ++ [.email "LoamBase Perenual Fetch — Daily Run Complete"])

/-- n successive invocations, concatenating their effects. -/
def invokeN (budget : ℕ) (hasRedis enqueueOk : Bool) (retry_count : ℕ)
    (now : ℤ) (upstream : ℕ → FetchResult) : ℕ → PerDB → PerDB × List Eff
  | 0, db => (db, [])
  | n + 1, db =>
    let r := fetch_perenual budget hasRedis enqueueOk retry_count now upstream db
    let rest := invokeN budget hasRedis enqueueOk retry_count now upstream n r.1
    (rest.1, r.2 ++ rest.2)

/-! ## Harvest Coordinator: permapeople (app/tasks/fetch_permapeople.py)

Pass 1 discovery, modelled at page granularity: the page loop commits once
per page, and a per-item insert failure (a database exception, supplied here
as an oracle over the upstream id) triggers db.rollback(), which resets the
session to the page-start commit before iteration continues. -/

/-- A permapeople_plants source row. cols holds the columns filled from the
parsed data[] key-value pairs. -/
structure PPRow where
  permapeople_id : ℕ
  plant_id : ℕ
  common_name : String
  scientific_name : Option String
  description : Option String
  image_url : Option String
  slug : Option String
  version : Option ℤ
  cols : SourceRow
deriving DecidableEq

/-- One upstream permapeople item. parsed carries the result of
_parse_data_keys on the payload data[] pairs. -/
structure PPItem where
  id : Option ℕ
  name : Option String
  scientific_name : Option String
  description : Option String
  images : Option (Option String × Option String)
  slug : Option String
  version : Option ℤ
  parsed : SourceRow
deriving DecidableEq

/-- The permapeople-facing slice of the database session. -/
structure PPState where
  plants : List CPlant
  pprows : List PPRow
  nextPlantId : ℕ
deriving DecidableEq

/-- _extract_image_url: images.title or images.thumb. -/
def extractImageUrl (it : PPItem) : Option String :=
  match it.images with
  | some (t, th) => pyOrStr t th
  | none => none

/-- Modelled from the spec: fetch_permapeople imports find_plant_by_name from
app/tasks/fetch_utils, but that function is absent from the provided sources
(fetch_utils.py only defines find_plant_by_scientific_name). Section 4.3 of
the specification prescribes matching an existing Canonical Record by
case-insensitive scientific name and then by common name. -/
def find_plant_by_name (plants : List CPlant) (sci common : String) :
    Option CPlant :=
  match plants.find? (fun p =>
    match p.scientific_name with
    | some s => pyLower s == pyLower sci
    | none => false) with
  | some p => some p
  | none => plants.find? (fun p => pyLower p.common_name == pyLower common)

/-- _insert_new_species (lines 162-208): match the canonical table by
scientific plus common name; create a stub canonical row first when no match;
then insert the linked source row. Returns the state and whether a new
canonical plant was created. -/
def insert_new_species (st : PPState) (it : PPItem) (pid : ℕ) : PPState × Bool :=
  let common_name :=
    match it.name with
    | some s => if s = "" then "Unknown" else s
    | none => "Unknown"
  let sci := it.scientific_name
  let plantM :=
    match sci with
    | some s => find_plant_by_name st.plants s common_name
    | none => none
  match plantM with
  | some plant =>
    let row : PPRow :=
      ⟨pid, plant.id, common_name, sci, it.description, extractImageUrl it,
       it.slug, it.version, it.parsed⟩
    ({ st with pprows := st.pprows ++ [row] }, false)
  | none =>
    let plant : CPlant :=
      ⟨st.nextPlantId, common_name, sci, extractImageUrl it, some "permapeople",
       some (toString pid), false, ["permapeople"]⟩
    let row : PPRow :=
      ⟨pid, plant.id, common_name, sci, it.description, extractImageUrl it,
       it.slug, it.version, it.parsed⟩
    ({ st with plants := st.plants ++ [plant], pprows := st.pprows ++ [row],
               nextPlantId := st.nextPlantId + 1 }, true)

structure PPStats where
  new_species : ℕ
  new_plants_created : ℕ
  matched_existing : ℕ
  skipped : ℕ
  errors : ℕ
deriving DecidableEq

/-- One iteration of the Pass 1 item loop (lines 273-294): skip items without
an id; count and skip ids already present in the session; on an insert
exception count an error and roll the session back to the page-start commit;
otherwise insert. The last_id cursor only feeds the next list request and is
not part of the page model. -/
def pass1Item (failIns : ℕ → Bool) (pageStart : PPState)
    (acc : PPState × PPStats) (it : PPItem) : PPState × PPStats :=
  match it.id with
  | none => acc
  | some pid =>
    if acc.1.pprows.any (fun r => r.permapeople_id == pid) then
      (acc.1, { acc.2 with skipped := acc.2.skipped + 1 })
    else if failIns pid then
      (pageStart, { acc.2 with errors := acc.2.errors + 1 })
    else
      let r := insert_new_species acc.1 it pid
      (r.1,
       if r.2 then
         { acc.2 with new_species := acc.2.new_species + 1,
                      new_plants_created := acc.2.new_plants_created + 1 }
       else
         { acc.2 with new_species := acc.2.new_species + 1,
                      matched_existing := acc.2.matched_existing + 1 })

/-- One Pass 1 page: iterate the items over the session and commit at the end
(line 296), so the returned state is the committed state. -/
def pass1Page (failIns : ℕ → Bool) (committed : PPState) (items : List PPItem)
    (stats0 : PPStats) : PPState × PPStats :=
  items.foldl (pass1Item failIns committed) (committed, stats0)

/-! ## Lemmas about the merge engine -/

theorem pyEq_refl (v : Value) : pyEq v v = true := by
  cases v <;> simp [pyEq, Value.toNum]

theorem pyOptEq_refl (o : Option Value) : pyOptEq o o = true := by
  cases o <;> simp [pyOptEq, pyEq_refl]

theorem setEqB_refl (l : List String) : setEqB l l = true := by
  unfold setEqB
  rw [Bool.and_self]
  rw [List.all_eq_true]
  intro x hx
  exact decide_eq_true hx

theorem lookup_updateA_self (l : List (String × Option Value)) (f : String)
    (v : Option Value) : (updateA l f v).lookup f = some v := by
  induction l with
  | nil => simp [updateA, List.lookup]
  | cons hd tl ih =>
    by_cases hgf : hd.1 = f
    · simp [updateA, hgf, List.lookup]
    · have hfb : (f == hd.1) = false := beq_eq_false_iff_ne.mpr (fun hc => hgf hc.symm)
      simp only [updateA, if_neg hgf, List.lookup, hfb]
      exact ih

theorem lookup_updateA_ne (l : List (String × Option Value)) (f g : String)
    (v : Option Value) (h : g ≠ f) : (updateA l f v).lookup g = l.lookup g := by
  have hgb : (g == f) = false := beq_eq_false_iff_ne.mpr h
  induction l with
  | nil => simp [updateA, List.lookup, hgb]
  | cons hd tl ih =>
    by_cases hgf : hd.1 = f
    · subst hgf
      simp only [updateA, if_pos rfl, List.lookup, hgb]
    · simp only [updateA, if_neg hgf, List.lookup]
      by_cases hghd : g = hd.1
      · have : (g == hd.1) = true := beq_iff_eq.mpr hghd
        rw [this]
      · have : (g == hd.1) = false := beq_eq_false_iff_ne.mpr hghd
        rw [this]
        exact ih

theorem getF_setF_same (p : MPlant) (f : String) (v : Value) :
    getF (setF p f v) f = some v := by
  simp [getF, setF, lookup_updateA_self]

theorem getF_setF_ne (p : MPlant) (f g : String) (v : Value) (h : g ≠ f) :
    getF (setF p f v) g = getF p g := by
  simp [getF, setF, lookup_updateA_ne _ _ _ _ h]

/-- The no-write property of one rule entry on a given plant: the field step
leaves any state carrying that plant unchanged. -/
def stepNW (pp per : Option SourceRow) (p : MPlant) (e : String × Rule) : Prop :=
  ∀ c su, stepField pp per ⟨p, c, su⟩ e = (⟨p, c, su⟩, false)

theorem foldFields_nw (pp per : Option SourceRow) (rules : List (String × Rule))
    (p : MPlant) (c : Bool) (su : List String)
    (h : ∀ e ∈ rules, stepNW pp per p e) :
    foldFields pp per rules ⟨p, c, su⟩ = (⟨p, c, su⟩, false) := by
  induction rules with
  | nil => rfl
  | cons e rest ih =>
    have he := h e (List.mem_cons_self e rest)
    simp only [foldFields, he c su]
    exact ih (fun x hx => h x (List.mem_cons_of_mem e hx))

theorem foldFields_append (pp per : Option SourceRow)
    (l1 l2 : List (String × Rule)) (st : FState) :
    foldFields pp per (l1 ++ l2) st =
      match foldFields pp per l1 st with
      | (st1, true) => (st1, true)
      | (st1, false) => foldFields pp per l2 st1 := by
  induction l1 generalizing st with
  | nil => simp [foldFields]
  | cons e rest ih =>
    simp only [List.cons_append, foldFields]
    cases hs : stepField pp per st e with
    | mk st2 b =>
      cases b
      · exact ih st2
      · rfl

theorem plant_stepField (pp per : Option SourceRow) (st : FState)
    (e : String × Rule) :
    (stepField pp per st e).1.plant = st.plant ∨
      ∃ v, (stepField pp per st e).1.plant = setF st.plant e.1 v := by
  unfold stepField
  repeat' split
  all_goals first
    | exact Or.inl rfl
    | exact Or.inr ⟨_, rfl⟩

theorem getF_stepField_ne (pp per : Option SourceRow) (st : FState)
    (e : String × Rule) (g : String) (h : g ≠ e.1) :
    getF (stepField pp per st e).1.plant g = getF st.plant g := by
  rcases plant_stepField pp per st e with hp | ⟨v, hp⟩
  · rw [hp]
  · rw [hp, getF_setF_ne _ _ _ _ h]

theorem getF_foldFields_notmem (pp per : Option SourceRow)
    (rules : List (String × Rule)) (st : FState) (g : String)
    (h : g ∉ rules.map Prod.fst) :
    getF (foldFields pp per rules st).1.plant g = getF st.plant g := by
  induction rules generalizing st with
  | nil => rfl
  | cons e rest ih =>
    have hge : g ≠ e.1 := by
      intro hc
      exact h (by simp [hc])
    have hrest : g ∉ rest.map Prod.fst := by
      intro hc
      exact h (by simp [hc])
    simp only [foldFields]
    cases hs : stepField pp per st e with
    | mk st2 b =>
      cases b
      · rw [ih st2 hrest]
        have := getF_stepField_ne pp per st e g hge
        rw [hs] at this
        exact this
      · have := getF_stepField_ne pp per st e g hge
        rw [hs] at this
        exact this

/-- The crux of idempotence: if a field step ran without an exception and a
plant stores the same value for that field as the post-step plant, the step is
a no-op on the new plant. Every discriminant before the final write decision
depends only on the source rows, not on the plant. -/
theorem stepNW_of_ok (pp per : Option SourceRow) (stA : FState)
    (e : String × Rule) (p1 : MPlant)
    (hok : (stepField pp per stA e).2 = false)
    (hsame : getF p1 e.1 = getF (stepField pp per stA e).1.plant e.1) :
    stepNW pp per p1 e := by
  intro c su
  by_cases h1 : sourceFieldLookup e.1 = []
  · simp only [stepField, if_pos h1]
  · by_cases h2 : fieldRaw pp per (sourceFieldLookup e.1) = []
    · simp only [stepField, if_neg h1, if_pos h2]
    · rcases hc : fieldCandidates pp per e.1 with err | normalized
      · exfalso
        simp only [stepField, if_neg h1, if_neg h2, hc] at hok
        exact Bool.noConfusion hok
      · by_cases h3 : normalized = []
        · simp only [stepField, if_neg h1, if_neg h2, hc, if_pos h3]
        · rcases hs : applyStrategy e.2.strategy normalized (rulePriority e.2)
            with err2 | resolved
          · exfalso
            simp only [stepField, if_neg h1, if_neg h2, hc, if_neg h3, hs] at hok
            exact Bool.noConfusion hok
          · cases hr : resolved with
            | none =>
              simp only [stepField, if_neg h1, if_neg h2, hc, if_neg h3, hs, hr]
            | some v =>
              rw [hr] at hs
              have hcur : pyOptEq (some v) (getF p1 e.1) = true := by
                simp only [stepField, if_neg h1, if_neg h2, hc, if_neg h3, hs]
                  at hsame
                by_cases hw : pyOptEq (some v) (getF stA.plant e.1) = true
                · rw [if_pos hw] at hsame
                  rw [hsame]
                  exact hw
                · rw [if_neg hw] at hsame
                  simp only at hsame
                  rw [hsame, getF_setF_same]
                  exact pyOptEq_refl (some v)
              simp only [stepField, if_neg h1, if_neg h2, hc, if_neg h3, hs,
                if_pos hcur]

/-! ## Claim theorems -/

/-- C1: the Merge Engine is idempotent. For every canonical record, linked
source rows and rule registry (rule keys are unique, as dict keys are), if the
first pass classifies the record as enriched or unchanged, then a second pass
over the same source data writes nothing: it returns the identical plant and
classifies it as unchanged, because a resolved value is written only when it
is non-null and differs from the stored value. -/
theorem merge_engine_idempotent (rules : List (String × Rule)) (plant : MPlant)
    (pp per : Option SourceRow)
    (hnd : (rules.map Prod.fst).Nodup)
    (h : (processRecord rules plant pp per).2 = Outcome.enriched ∨
         (processRecord rules plant pp per).2 = Outcome.unchanged) :
    processRecord rules ((processRecord rules plant pp per).1) pp per
      = ((processRecord rules plant pp per).1, Outcome.unchanged) := by
  by_cases hnone : pp = none ∧ per = none
  · exfalso
    simp only [processRecord, if_pos hnone] at h
    rcases h with h | h <;> exact Outcome.noConfusion h
  · rcases hf : foldFields pp per rules ⟨plant, false, setOfList plant.data_sources⟩
      with ⟨st1, b⟩
    cases b with
    | true =>
      exfalso
      simp only [processRecord, if_neg hnone, hf] at h
      rcases h with h | h <;> exact Outcome.noConfusion h
    | false =>
      have hPdef : processRecord rules plant pp per =
          ((if setEqB st1.sources_used (setOfList st1.plant.data_sources)
            then st1.plant
            else { st1.plant with data_sources := sortStr st1.sources_used }),
           (if st1.changed then Outcome.enriched else Outcome.unchanged)) := by
        simp only [processRecord, if_neg hnone, hf]
      have hgf : ∀ g, getF (processRecord rules plant pp per).1 g
          = getF st1.plant g := by
        intro g
        rw [hPdef]
        by_cases hse : setEqB st1.sources_used (setOfList st1.plant.data_sources)
          = true
        · simp only [if_pos hse]
        · simp only [if_neg hse]
          rfl
      have hall : ∀ e ∈ rules, stepNW pp per (processRecord rules plant pp per).1 e := by
        intro e he
        rcases List.append_of_mem he with ⟨pre, post, heq⟩
        have hpost : e.1 ∉ post.map Prod.fst := by
          have hmap : rules.map Prod.fst
              = pre.map Prod.fst ++ e.1 :: post.map Prod.fst := by
            rw [heq]
            simp
          rw [hmap] at hnd
          have := (List.nodup_cons.mp hnd.of_append_right).1
          exact this
        rw [heq] at hf
        rw [foldFields_append] at hf
        rcases hpre : foldFields pp per pre
            ⟨plant, false, setOfList plant.data_sources⟩ with ⟨stA, bA⟩
        rw [hpre] at hf
        cases bA with
        | true => exact absurd (congrArg Prod.snd hf) (by simp)
        | false =>
          rcases hstep : stepField pp per stA e with ⟨stB, bB⟩
          simp only [foldFields, hstep] at hf
          cases bB with
          | true =>
            have hf2 : (stB, true) = (st1, false) := hf
            exact absurd (congrArg Prod.snd hf2) (by simp)
          | false =>
            have hf2 : foldFields pp per post stB = (st1, false) := hf
            apply stepNW_of_ok pp per stA e
            · rw [hstep]
            · rw [hgf e.1, hstep]
              have hpres := getF_foldFields_notmem pp per post stB e.1 hpost
              rw [hf2] at hpres
              exact hpres
      have hfold2 : foldFields pp per rules
          ⟨(processRecord rules plant pp per).1, false,
            setOfList (processRecord rules plant pp per).1.data_sources⟩
          = (⟨(processRecord rules plant pp per).1, false,
              setOfList (processRecord rules plant pp per).1.data_sources⟩, false) :=
        foldFields_nw pp per rules _ _ _ hall
      generalize hPg : (processRecord rules plant pp per).1 = pl1 at hfold2 ⊢
      simp only [processRecord, if_neg hnone]
      rw [hfold2]
      exact congrArg (fun x => (x, Outcome.unchanged)) (if_pos (setEqB_refl _))

/-- A one-rule registry resolving image_url by priority, with both sources
supplying a value. -/
def rulesIU : List (String × Rule) :=
  [("image_url", ⟨"priority", some ["permapeople", "perenual"]⟩)]

def plantIU : MPlant := ⟨[("image_url", none)], []⟩

def ppRowIU : SourceRow := [("image_url", some (.str "A"))]

def perRowIU : SourceRow := [("image_url", some (.str "B"))]

/-- Witness for C1: a concrete first pass enriches, and the theorem applied
to it yields an identical plant classified unchanged on the second pass. -/
theorem merge_engine_idempotent_witness :
    ((rulesIU.map Prod.fst).Nodup ∧
      (processRecord rulesIU plantIU (some ppRowIU) (some perRowIU)).2
        = Outcome.enriched) ∧
    processRecord rulesIU
        ((processRecord rulesIU plantIU (some ppRowIU) (some perRowIU)).1)
        (some ppRowIU) (some perRowIU)
      = ((processRecord rulesIU plantIU (some ppRowIU) (some perRowIU)).1,
         Outcome.unchanged) :=
  ⟨⟨by decide, by decide⟩,
   merge_engine_idempotent rulesIU plantIU (some ppRowIU) (some perRowIU)
     (by decide) (Or.inl (by decide))⟩

/-- An upstream catalog of five non-empty pages with last_page 5. -/
def upstream5 : ℕ → FetchResult := fun p =>
  if p ≤ 5 then
    .ok ⟨[⟨some p, some ("plant " ++ toString p), .str ("Sci " ++ toString p),
          none⟩], some 5⟩
  else .ok ⟨[], some 5⟩

def emptyPerDB : PerDB := ⟨[], [], [], 1⟩

/-- The invocation of the Harvest Coordinator with budget 3 against the
five-page upstream, from an empty database. -/
def budgetRunC2 : PerDB × List Eff :=
  fetch_perenual 3 true true 0 0 upstream5 emptyPerDB

/-- C2: the budget is checked before each external list call and every
successful call consumes one budget unit; with budget 3 against a five-page
upstream, exactly the three calls for pages 1, 2 and 3 are made, the run is
persisted failed with the budget-reached message, and current_page stays at
page 3, the last fully committed page (requests_used equals the three units
spent). -/
theorem budget_three_of_five_pages :
    budgetRunC2.2.filter Eff.isCall = [.call 1, .call 2, .call 3] ∧
    (budgetRunC2.2.filter Eff.isCall).length = 3 ∧
    budgetRunC2.1.runs.head?.map (fun x => x.status) = some "failed" ∧
    budgetRunC2.1.runs.head?.bind (fun x => x.error_message)
      = some "Daily budget reached (3 requests)" ∧
    budgetRunC2.1.runs.head?.map (fun x => x.current_page) = some 3 ∧
    budgetRunC2.1.runs.head?.map (fun x => x.requests_used) = some 3 := by
  decide

/-- Closed form of an invocation whose first list call is rate-limited. -/
theorem fetch_perenual_rl_first (budget : ℕ) (hasRedis enqueueOk : Bool)
    (rc : ℕ) (now : ℤ) (upstream : ℕ → FetchResult) (db : PerDB) (msg : String)
    (hb : 0 < budget)
    (hactive : getActiveRun db now = false)
    (hcomplete : lastComplete db = false)
    (hrl : upstream (startPage db) = .rateLimited msg) :
    fetch_perenual budget hasRedis enqueueOk rc now upstream db
      = ({ runs :=
             { status := "failed", current_page := startPage db - 1,
               total_pages := none, records_synced := 0, requests_used := 0,
               started_at := now, finished_at := some now,
               error_message := some ("Quota not reset at " ++ pad2 CRON_HOUR ++
                 ":00 UTC (page " ++ toString (startPage db) ++ ")") } :: db.runs,
           plants := db.plants, prows := db.prows,
           nextPlantId := db.nextPlantId },
         .call (startPage db) :: handleQuotaNotReset hasRedis enqueueOk rc) := by
  have hb0 : ¬(budget ≤ 0) := Nat.not_le.mpr hb
  unfold fetch_perenual
  rw [hactive, hcomplete]
  simp only [Bool.false_eq_true, if_false]
  simp only [pageLoop, hrl]
  rw [if_neg hb0]
  rfl

/-- C3: a rate limit on the very first call of an invocation (zero requests
used) persists the run failed with the quota-not-reset message; with a worker
context, retries remaining and a working queue, the invocation only schedules
the next retry, carrying retry counter rc + 1 at the next preset hour, and
sends no email; on the final retry (rc at the schedule length 3), without a
worker context, or when enqueueing fails, the quota-not-reset email is sent
instead. A rate limit once at least one request has succeeded is instead
reported through the same daily budget-exhaustion email, with a rate-limited
error message. -/
theorem quota_not_reset_first_call (budget : ℕ) (hasRedis enqueueOk : Bool)
    (rc : ℕ) (now : ℤ) (upstream : ℕ → FetchResult) (db : PerDB) (msg : String)
    (hb : 0 < budget)
    (hactive : getActiveRun db now = false)
    (hcomplete : lastComplete db = false)
    (hrl : upstream (startPage db) = .rateLimited msg) :
    ((fetch_perenual budget hasRedis enqueueOk rc now upstream db).1.runs.head?.map
        (fun x => x.status) = some "failed") ∧
    ((fetch_perenual budget hasRedis enqueueOk rc now upstream db).1.runs.head?.bind
        (fun x => x.error_message)
      = some ("Quota not reset at " ++ pad2 CRON_HOUR ++ ":00 UTC (page " ++
              toString (startPage db) ++ ")")) ∧
    (hasRedis = true → rc < 3 → enqueueOk = true →
      (fetch_perenual budget hasRedis enqueueOk rc now upstream db).2
        = [.call (startPage db), .schedule (rc + 1) (RETRY_HOURS_UTC.getD rc 0)]) ∧
    (hasRedis = false ∨ 3 ≤ rc ∨ enqueueOk = false →
      (fetch_perenual budget hasRedis enqueueOk rc now upstream db).2
        = [.call (startPage db),
           .email "LoamBase Perenual Fetch — Quota Not Reset"]) ∧
    (∀ upstream2 : ℕ → FetchResult, ∀ pd msg2, 2 ≤ budget →
      upstream2 (startPage db) = .ok pd → pd.data ≠ [] →
      startPage db < pd.last_page.getD 1 →
      upstream2 (startPage db + 1) = .rateLimited msg2 →
      ((fetch_perenual budget hasRedis enqueueOk rc now upstream2 db).1.runs.head?.map
          (fun x => x.status) = some "failed") ∧
      ((fetch_perenual budget hasRedis enqueueOk rc now upstream2 db).1.runs.head?.bind
          (fun x => x.error_message)
        = some ("Rate limited on page " ++ toString (startPage db + 1) ++ ": " ++ msg2)) ∧
      ((fetch_perenual budget hasRedis enqueueOk rc now upstream2 db).2
        = [.call (startPage db), .call (startPage db + 1),
           .email "LoamBase Perenual Fetch — Daily Run Complete"])) := by
  have hrun := fetch_perenual_rl_first budget hasRedis enqueueOk rc now upstream
    db msg hb hactive hcomplete hrl
  refine ⟨?_, ?_, ?_, ?_, ?_⟩
  · rw [hrun]
    rfl
  · rw [hrun]
    rfl
  · intro h1 h2 h3
    rw [hrun]
    subst h1
    subst h3
    simp [handleQuotaNotReset, RETRY_HOURS_UTC, h2]
  · intro hdisj
    rw [hrun]
    simp only [handleQuotaNotReset]
    rcases hdisj with h1 | h2 | h3
    · rw [if_neg (by simp [h1])]
    · rw [if_neg (by
        intro hc
        have := hc.2
        simp [RETRY_HOURS_UTC] at this
        omega)]
    · by_cases hr : hasRedis = true ∧ rc < RETRY_HOURS_UTC.length
      · rw [if_pos hr, if_neg (by simp [h3])]
      · rw [if_neg hr]
  · intro upstream2 pd msg2 hb2 hok hdata hlt hrl2
    obtain ⟨b2, rfl⟩ : ∃ b2, budget = b2 + 2 := ⟨budget - 2, by omega⟩
    have hrun2 : fetch_perenual (b2 + 2) hasRedis enqueueOk rc now upstream2 db
        = ({ runs :=
               { status := "failed", current_page := startPage db,
                 total_pages := pd.last_page,
                 records_synced :=
                   (pd.data.foldl (fun (acc : PerDB × ℕ) sp =>
                     ((processSpecies acc.1 sp).1,
                      acc.2 + (processSpecies acc.1 sp).2)) (db, 0)).2,
                 requests_used := 1, started_at := now, finished_at := some now,
                 error_message := some ("Rate limited on page " ++
                   toString (startPage db + 1) ++ ": " ++ msg2) } ::
             (pd.data.foldl (fun (acc : PerDB × ℕ) sp =>
                 ((processSpecies acc.1 sp).1,
                  acc.2 + (processSpecies acc.1 sp).2)) (db, 0)).1.runs,
             plants := (pd.data.foldl (fun (acc : PerDB × ℕ) sp =>
                 ((processSpecies acc.1 sp).1,
                  acc.2 + (processSpecies acc.1 sp).2)) (db, 0)).1.plants,
             prows := (pd.data.foldl (fun (acc : PerDB × ℕ) sp =>
                 ((processSpecies acc.1 sp).1,
                  acc.2 + (processSpecies acc.1 sp).2)) (db, 0)).1.prows,
             nextPlantId := (pd.data.foldl (fun (acc : PerDB × ℕ) sp =>
                 ((processSpecies acc.1 sp).1,
                  acc.2 + (processSpecies acc.1 sp).2)) (db, 0)).1.nextPlantId },
           [.call (startPage db), .call (startPage db + 1),
            .email "LoamBase Perenual Fetch — Daily Run Complete"]) := by
      unfold fetch_perenual
      rw [hactive, hcomplete]
      simp only [Bool.false_eq_true, if_false]
      simp only [pageLoop, hok, hrl2]
      simp only [if_neg (show ¬(b2 + 2 ≤ 0) by omega), if_neg hdata,
        if_neg (Nat.not_le.mpr hlt), if_neg (show ¬(b2 + 2 ≤ 0 + 1) by omega)]
      simp only [if_true]
      simp only [if_neg (show ¬(b2 + 2 ≤ 0 + 1) by omega)]
      simp only [Nat.zero_add]
      rfl
    refine ⟨?_, ?_, ?_⟩ <;> (rw [hrun2]; try rfl)

/-- An upstream that always answers 429. -/
def upRLAll : ℕ → FetchResult := fun _ => .rateLimited "HTTP 429 from Perenual"

/-- Witness for C3: a first-call 429 from an empty database with a worker
context and retries remaining schedules retry 1 at 06:00 UTC and sends no
email. -/
theorem quota_not_reset_first_call_witness :
    (0 < 95 ∧ getActiveRun emptyPerDB 0 = false ∧
      lastComplete emptyPerDB = false ∧
      upRLAll (startPage emptyPerDB) = .rateLimited "HTTP 429 from Perenual") ∧
    (fetch_perenual 95 true true 0 0 upRLAll emptyPerDB).2
      = [.call 1, .schedule 1 6] :=
  ⟨⟨by decide, by decide, by decide, rfl⟩,
   (quota_not_reset_first_call 95 true true 0 0 upRLAll emptyPerDB
      "HTTP 429 from Perenual" (by decide) (by decide) (by decide)
      rfl).2.2.1 rfl (by decide) rfl⟩

/-- C4: the three cited normalizers are not total. Each converts a regex
token with float() outside the try/except that guards its sibling
conversions, so a matched token holding two dots raises an uncaught
ValueError: parse_measurement_to_inches on a range whose second operand is
malformed, normalize_soil_ph on an inequality-prefixed value, and
normalize_germination_time on a bare malformed number. The spec contract
(never raise, return null and histogram-track unparseable input) is the
documented intent; these inputs instead escape as exceptions and are counted
as per-record errors by the merge engine. -/
theorem normalizers_raise_uncaught :
    parse_measurement_to_inches "0-1.2.3" "m" = .error () ∧
    parse_measurement_to_inches "0-1.2.3" "cm" = .error () ∧
    normalize_soil_ph ">6.5.5" = .error () ∧
    normalize_germination_time "1.2.3" = .error () :=
  ⟨rfl, rfl, rfl, rfl⟩

/-- C5 counterexample: normalize_hardiness_zones on "14" returns ["14"], not
null, although zone 14 is outside 0..13 — the range bounds check does not
apply to the bare single-zone branch. -/
theorem hardiness_zone_14_not_null :
    normalize_hardiness_zones "14" = some ["14"] ∧
    normalize_hardiness_zones "14" ≠ none := by
  decide

/-- A successful range match forces a hyphen after the first zone token, so
the anchored single-zone pattern cannot match the same string. -/
theorem zoneSingleMatch_of_rangeMatch (l : List Char) (t : List Char × List Char)
    (h : zoneRangeMatch l = some t) : zoneSingleMatch l = none := by
  unfold zoneRangeMatch at h
  unfold zoneSingleMatch
  cases hz : zoneToken l with
  | none => rw [hz] at h
  | some tr =>
    rw [hz] at h
    obtain ⟨tk, r⟩ := tr
    have hr : r ≠ [] := by
      intro hre
      subst hre
      simp [List.dropWhile] at h
    simp [hr]

/-- C5 amended: normalize_hardiness_zones expands "7a-9b" by sub-letter and
"2-11" by whole zone number, and returns null for every hyphenated range
whose parsed endpoints fall outside 0..13 or have start greater than end; a
bare single zone, however, bypasses the bounds check and is returned as-is,
so "14" yields ["14"] rather than null. -/
theorem hardiness_zones_amended :
    normalize_hardiness_zones "7a-9b"
      = some ["7a", "7b", "8a", "8b", "9a", "9b"] ∧
    normalize_hardiness_zones "2-11"
      = some ["2", "3", "4", "5", "6", "7", "8", "9", "10", "11"] ∧
    (∀ raw : String, ∀ t1 t2 : List Char,
      zoneRangeMatch (zonesCleanSep (zonesClean raw)) = some (t1, t2) →
      ¬((parseZoneEndpoint t1).1 ≤ (parseZoneEndpoint t2).1 ∧
        (parseZoneEndpoint t2).1 ≤ 13) →
      normalize_hardiness_zones raw = none) ∧
    normalize_hardiness_zones "14" = some ["14"] := by
  refine ⟨by decide, by decide, ?_, by decide⟩
  intro raw t1 t2 hr hb
  have hne : zonesClean raw ≠ [] := by
    intro he
    rw [he] at hr
    have hz : zoneRangeMatch (zonesCleanSep []) = none := by decide
    rw [hz] at hr
    exact Option.noConfusion hr
  unfold normalize_hardiness_zones
  rw [if_neg hne, hr]
  simp only [if_neg hb]
  rw [zoneSingleMatch_of_rangeMatch _ _ hr]
  rfl

/-- Witness for C5 amended: the out-of-range range "14-15" parses as the
range 14 to 15 and normalizes to null. -/
theorem hardiness_zones_amended_witness :
    (zoneRangeMatch (zonesCleanSep (zonesClean "14-15"))
        = some (['1', '4'], ['1', '5']) ∧
      ¬((parseZoneEndpoint ['1', '4']).1 ≤ (parseZoneEndpoint ['1', '5']).1 ∧
        (parseZoneEndpoint ['1', '5']).1 ≤ 13)) ∧
    normalize_hardiness_zones "14-15" = none :=
  ⟨⟨by decide, by decide⟩,
   hardiness_zones_amended.2.2.1 "14-15" ['1', '4'] ['1', '5']
     (by decide) (by decide)⟩

/-- After a passed budget check the loop makes the list call for the current
page first, whatever the upstream answers. -/
theorem pageLoop_effs_head (budget : ℕ) (upstream : ℕ → FetchResult) (fuel : ℕ)
    (db : PerDB) (run : PRun) (page : ℕ)
    (hb : ¬(budget ≤ run.requests_used)) :
    ((pageLoop budget upstream (fuel + 1) db run page).2.2.2.1).head?
      = some (.call page) := by
  simp only [pageLoop]
  rw [if_neg hb]
  cases hu : upstream page with
  | rateLimited msg => simp
  | ok pd =>
    by_cases hd : pd.data = []
    · simp [hd]
    · by_cases hl : pd.last_page.getD 1 ≤ page <;> simp [hd, hl]

/-- C6: at most one invocation per job runs at a time. A running run started
within the last two hours makes the harvest invocation return immediately
with no new run and no effects; when every running run is stale (the guard is
false) and the latest run did not complete the catalog, the invocation
proceeds and its first external call is for the page after the latest run's
last committed page, not page 1; the merge engine under its own guard
likewise returns with the database untouched. -/
theorem invocation_guard_and_resume :
    (∀ (budget : ℕ) (hR eO : Bool) (rc : ℕ) (now : ℤ)
        (upstream : ℕ → FetchResult) (db : PerDB),
      getActiveRun db now = true →
      fetch_perenual budget hR eO rc now upstream db = (db, [])) ∧
    (∀ (budget : ℕ) (hR eO : Bool) (rc : ℕ) (now : ℤ)
        (upstream : ℕ → FetchResult) (db : PerDB) (l : PRun),
      getActiveRun db now = false → lastComplete db = false →
      getLastRun db = some l → 0 < budget →
      (fetch_perenual budget hR eO rc now upstream db).2.head?
        = some (.call (l.current_page + 1))) ∧
    (∀ (rules : List (String × Rule)) (tb : String) (now : ℤ) (edb : EnrichDB),
      is_source_running edb.druns "enrichment" now = true →
      enrich_plants rules tb now edb = edb) := by
  refine ⟨?_, ?_, ?_⟩
  · intro budget hR eO rc now upstream db hactive
    unfold fetch_perenual
    rw [hactive]
    simp
  · intro budget hR eO rc now upstream db l hactive hcomplete hlast hb
    have hsp : startPage db = l.current_page + 1 := by
      unfold startPage
      rw [hlast]
    unfold fetch_perenual
    rw [hactive, hcomplete]
    simp only [Bool.false_eq_true, if_false]
    rcases hpl : pageLoop budget upstream (budget + 1) db
        { status := "running", current_page := startPage db - 1,
          total_pages := none, records_synced := 0, requests_used := 0,
          started_at := now, finished_at := none, error_message := none }
        (startPage db) with ⟨db1, run1, page1, effs, ex⟩
    have heff : effs.head? = some (.call (startPage db)) := by
      have hh := pageLoop_effs_head budget upstream budget db
        { status := "running", current_page := startPage db - 1,
          total_pages := none, records_synced := 0, requests_used := 0,
          started_at := now, finished_at := none, error_message := none }
        (startPage db) (by simp; omega)
      rw [hpl] at hh
      exact hh
    obtain ⟨teff, rfl⟩ : ∃ t, effs = Eff.call (startPage db) :: t := by
      cases effs with
      | nil => simp at heff
      | cons a t =>
        simp only [List.head?] at heff
        exact ⟨t, by rw [Option.some_inj.mp heff]⟩
    rw [hsp] at heff ⊢
    cases ex <;> rfl
  · intro rules tb now edb hguard
    unfold enrich_plants
    rw [hguard]
    simp

/-- A database with a fresh running run (started 100 seconds ago). -/
def dbActiveW : PerDB :=
  ⟨[⟨"running", 7, some 20, 0, 0, -100, none, none⟩], [], [], 1⟩

/-- A database whose only run is a stale running run (started 8000 seconds
ago) that committed page 7. -/
def dbStaleW : PerDB :=
  ⟨[⟨"running", 7, some 20, 0, 0, -8000, none, none⟩], [], [], 1⟩

/-- An enrichment database with a fresh running enrichment run. -/
def enrichDbW : EnrichDB :=
  ⟨[⟨"enrichment", "running", -100, none, 0, 0, 0, 0, 0, some "cron"⟩], []⟩

/-- Witness for C6: the fresh running run blocks and leaves everything
untouched; the stale one does not block and the resumed invocation calls
page 8 first; the merge guard returns the database unchanged. -/
theorem invocation_guard_and_resume_witness :
    (getActiveRun dbActiveW 0 = true ∧
      fetch_perenual 95 true true 0 0 upRLAll dbActiveW = (dbActiveW, [])) ∧
    (getActiveRun dbStaleW 0 = false ∧ lastComplete dbStaleW = false ∧
      (fetch_perenual 95 true true 0 0 upRLAll dbStaleW).2.head?
        = some (.call 8)) ∧
    (is_source_running enrichDbW.druns "enrichment" 0 = true ∧
      enrich_plants [] "manual" 0 enrichDbW = enrichDbW) :=
  ⟨⟨by decide,
    invocation_guard_and_resume.1 95 true true 0 0 upRLAll dbActiveW (by decide)⟩,
   ⟨by decide, by decide,
    invocation_guard_and_resume.2.1 95 true true 0 0 upRLAll dbStaleW
      ⟨"running", 7, some 20, 0, 0, -8000, none, none⟩
      (by decide) (by decide) (by decide) (by decide)⟩,
   ⟨by decide,
    invocation_guard_and_resume.2.2 [] "manual" 0 enrichDbW (by decide)⟩⟩

/-- C10: once the most recent SeederRun has status complete, fetch_perenual
returns at its guard on every later invocation: over any number of successive
invocations, with any context, time, budget and upstream, the database is
unchanged (no run row is created) and no effect — no external call, schedule
or email — is produced. The harvest stops permanently and no update-detection
pass exists for this source. -/
theorem complete_catalog_stops_harvest (budget : ℕ) (hR eO : Bool) (rc : ℕ)
    (now : ℤ) (upstream : ℕ → FetchResult) (n : ℕ) (db : PerDB)
    (hc : lastComplete db = true) :
    invokeN budget hR eO rc now upstream n db = (db, []) := by
  have hone : fetch_perenual budget hR eO rc now upstream db = (db, []) := by
    unfold fetch_perenual
    by_cases ha : getActiveRun db now = true
    · rw [ha]
      simp
    · rw [Bool.not_eq_true] at ha
      rw [ha, hc]
      simp
  induction n with
  | zero => rfl
  | succ n ih =>
    simp only [invokeN, hone, ih]
    rfl

/-- A database whose latest (and only) run completed the catalog. -/
def dbCompleteW : PerDB :=
  ⟨[⟨"complete", 337, some 337, 10094, 47, -100000, some (-90000), none⟩],
   [], [], 1⟩

/-- Witness for C10: three successive invocations against a live upstream do
nothing once the catalog is complete. -/
theorem complete_catalog_stops_harvest_witness :
    lastComplete dbCompleteW = true ∧
    invokeN 95 true true 0 0 upstream5 3 dbCompleteW = (dbCompleteW, []) :=
  ⟨by decide,
   complete_catalog_stops_harvest 95 true true 0 0 upstream5 3 dbCompleteW
     (by decide)⟩

/-- The merged row a joined row becomes after one pass of the merge engine. -/
def recordAfter (rules : List (String × Rule)) (row : ERow) : ERow :=
  { row with plant := (processRecord rules row.plant row.pp row.per).1 }

/-- How many rows of a batch the merge engine classifies with outcome o. -/
def countOutcome (rules : List (String × Rule)) (o : Outcome)
    (l : List ERow) : ℕ :=
  l.countP (fun row => (processRecord rules row.plant row.pp row.per).2 == o)

def addStats (a b : Stats) : Stats :=
  ⟨a.enriched + b.enriched, a.unchanged + b.unchanged,
   a.skipped + b.skipped, a.errors + b.errors⟩

def countsOf (rules : List (String × Rule)) (l : List ERow) : Stats :=
  ⟨countOutcome rules .enriched l, countOutcome rules .unchanged l,
   countOutcome rules .skipped l, countOutcome rules .procError l⟩

theorem addStats_zero (s : Stats) : addStats s ⟨0, 0, 0, 0⟩ = s := by
  cases s
  simp [addStats]

theorem foldl_stepRecordRow (rules : List (String × Rule)) (l : List ERow) :
    ∀ (acc : List ERow) (stats : Stats),
    l.foldl (stepRecordRow rules) (acc, stats)
      = (acc ++ l.map (recordAfter rules), addStats stats (countsOf rules l)) := by
  induction l with
  | nil =>
    intro acc stats
    simp [countsOf, countOutcome, addStats_zero]
  | cons r t ih =>
    intro acc stats
    rw [List.foldl_cons]
    have hstep : stepRecordRow rules (acc, stats) r
        = (acc ++ [recordAfter rules r],
           match (processRecord rules r.plant r.pp r.per).2 with
           | .skipped => { stats with skipped := stats.skipped + 1 }
           | .enriched => { stats with enriched := stats.enriched + 1 }
           | .unchanged => { stats with unchanged := stats.unchanged + 1 }
           | .procError => { stats with errors := stats.errors + 1 }) := by
      unfold stepRecordRow recordAfter
      rcases hp : processRecord rules r.plant r.pp r.per with ⟨p2, o⟩
      cases o <;> rfl
    rw [hstep, ih]
    rcases ho : (processRecord rules r.plant r.pp r.per).2 <;>
      (cases statsith : stats with
       | mk a b c d =>
         simp [countsOf, countOutcome, addStats, List.countP_cons, ho]
         omega)

/-- The batch loop processes exactly the suffix from its offset, row by row,
independently of batch boundaries. -/
theorem enrichLoop_eq (rules : List (String × Rule)) (rows : List ERow) :
    ∀ (offset : ℕ) (acc : List ERow) (stats : Stats),
    enrichLoop rules rows offset acc stats
      = (acc ++ (rows.drop offset).map (recordAfter rules),
         addStats stats (countsOf rules (rows.drop offset))) := by
  have H : ∀ (n offset : ℕ) (acc : List ERow) (stats : Stats),
      rows.length - offset ≤ n →
      enrichLoop rules rows offset acc stats
        = (acc ++ (rows.drop offset).map (recordAfter rules),
           addStats stats (countsOf rules (rows.drop offset))) := by
    intro n
    induction n with
    | zero =>
      intro offset acc stats hle
      have hdrop : rows.drop offset = [] := List.drop_eq_nil_of_le (by omega)
      rw [enrichLoop]
      rw [dif_pos (by rw [hdrop]; rfl)]
      rw [hdrop]
      simp [countsOf, countOutcome, addStats_zero]
    | succ n ih =>
      intro offset acc stats hle
      by_cases hb : (rows.drop offset).take BATCH_SIZE = []
      · have hdrop : rows.drop offset = [] := by
          rcases List.take_eq_nil_iff.mp hb with h | h
          · exact absurd h (by decide)
          · exact h
        rw [enrichLoop]
        rw [dif_pos hb, hdrop]
        simp [countsOf, countOutcome, addStats_zero]
      · have hofflt : offset < rows.length := by
          by_contra hge
          exact hb (by
            have hd : rows.drop offset = [] := List.drop_eq_nil_of_le (by omega)
            rw [hd]
            rfl)
        rw [enrichLoop]
        rw [dif_neg hb]
        rw [foldl_stepRecordRow]
        rw [ih (offset + BATCH_SIZE) _ _ (by
          have : 0 < BATCH_SIZE := by decide
          omega)]
        have hdd : rows.drop (offset + BATCH_SIZE)
            = (rows.drop offset).drop BATCH_SIZE := by
          rw [List.drop_drop, Nat.add_comm]
        have hsplit : rows.drop offset
            = (rows.drop offset).take BATCH_SIZE ++ rows.drop (offset + BATCH_SIZE) := by
          rw [hdd]
          exact (List.take_append_drop BATCH_SIZE (rows.drop offset)).symm
        have hca : ∀ l1 l2 : List ERow, countsOf rules (l1 ++ l2)
            = addStats (countsOf rules l1) (countsOf rules l2) := by
          intro l1 l2
          simp [countsOf, countOutcome, addStats, List.countP_append]
        have haa : ∀ a b c : Stats, addStats (addStats a b) c
            = addStats a (addStats b c) := by
          intro a b c
          simp [addStats, Nat.add_assoc]
        conv_rhs => rw [hsplit]
        rw [List.map_append, hca, haa, ← List.append_assoc]
  intro offset acc stats
  exact H (rows.length - offset) offset acc stats (Nat.le_refl _)

theorem addStats_zero_left (s : Stats) : addStats ⟨0, 0, 0, 0⟩ s = s := by
  cases s
  simp [addStats]

/-- C7: per-record and per-item failures are isolated. First conjunct (merge
engine): a full batch-loop pass equals the independent per-row merge of every
joined row, with the errors counter equal to the number of rows whose
processing raised — an exception on one record neither stops the loop nor
changes how any other record is processed. Second conjunct (harvest, Pass 1):
an insert exception on one item (a database error, supplied as an oracle on
the upstream id) is counted as one error and rolls the session back to the
page-start commit, after which the remaining items of the page are processed
exactly as if they started the page — their successful work is what ends up
committed. -/
theorem per_record_isolation :
    (∀ (rules : List (String × Rule)) (rows : List ERow),
      enrichLoop rules rows 0 [] ⟨0, 0, 0, 0⟩
        = (rows.map (recordAfter rules),
           ⟨countOutcome rules .enriched rows, countOutcome rules .unchanged rows,
            countOutcome rules .skipped rows,
            countOutcome rules .procError rows⟩)) ∧
    (∀ (failIns : ℕ → Bool) (committed : PPState) (stats0 : PPStats)
        (pre post : List PPItem) (bad : PPItem) (bpid : ℕ),
      bad.id = some bpid → failIns bpid = true →
      ((pre.foldl (pass1Item failIns committed) (committed, stats0)).1.pprows.any
          (fun r => r.permapeople_id == bpid)) = false →
      pass1Page failIns committed (pre ++ bad :: post) stats0
        = pass1Page failIns committed post
            { (pre.foldl (pass1Item failIns committed) (committed, stats0)).2 with
              errors := (pre.foldl (pass1Item failIns committed)
                (committed, stats0)).2.errors + 1 }) := by
  constructor
  · intro rules rows
    rw [enrichLoop_eq]
    rw [List.nil_append, addStats_zero_left]
    rfl
  · intro failIns committed stats0 pre post bad bpid hid hfail hskip
    unfold pass1Page
    rw [List.foldl_append, List.foldl_cons]
    have hbad : ∀ A : PPState × PPStats,
        (A.1.pprows.any (fun r => r.permapeople_id == bpid)) = false →
        pass1Item failIns committed A bad
          = (committed, { A.2 with errors := A.2.errors + 1 }) := by
      intro A hA
      unfold pass1Item
      rw [hid]
      simp only [hA, hfail, Bool.false_eq_true, if_false, if_true]
    rw [hbad _ hskip]

def ppItemW (n : ℕ) : PPItem :=
  ⟨some n, some ("Plant " ++ toString n), some ("Sci " ++ toString n),
   none, none, none, some 1, []⟩

/-- The insert on upstream id 2 raises; every other insert succeeds. -/
def failW : ℕ → Bool := fun pid => pid == 2

def ppCommitW : PPState := ⟨[], [], 1⟩

def ppStats0 : PPStats := ⟨0, 0, 0, 0, 0⟩

/-- Witness for C7: on a page of three items whose middle insert raises, the
failure counts one error, rolls back to the page start, and the third item is
still processed and committed. -/
theorem per_record_isolation_witness :
    ((ppItemW 2).id = some 2 ∧ failW 2 = true ∧
      (([ppItemW 1].foldl (pass1Item failW ppCommitW)
          (ppCommitW, ppStats0)).1.pprows.any
        (fun r => r.permapeople_id == 2)) = false) ∧
    pass1Page failW ppCommitW ([ppItemW 1] ++ ppItemW 2 :: [ppItemW 3]) ppStats0
      = pass1Page failW ppCommitW [ppItemW 3]
          { ([ppItemW 1].foldl (pass1Item failW ppCommitW)
              (ppCommitW, ppStats0)).2 with
            errors := ([ppItemW 1].foldl (pass1Item failW ppCommitW)
              (ppCommitW, ppStats0)).2.errors + 1 } :=
  ⟨⟨rfl, rfl, by decide⟩,
   per_record_isolation.2 failW ppCommitW ppStats0 [ppItemW 1] [ppItemW 3]
     (ppItemW 2) 2 rfl rfl (by decide)⟩

/-! ## The data_sources update (claim C8) -/

/-- The normalized candidate dict of a field, empty on error. -/
def fieldCands (pp per : Option SourceRow) (f : String) : SrcVals :=
  match fieldCandidates pp per f with
  | .ok n => n
  | .error _ => []

/-- The sources that supplied a candidate value for a field. -/
def fieldSrcs (pp per : Option SourceRow) (f : String) : List String :=
  (fieldCands pp per f).map Prod.fst

/-- Whether the merge writes a ruled field on a record currently storing the
values of p0: the resolved value exists and differs from the stored one.
Under unique rule keys this matches the write the field loop performs. -/
def fieldWrittenB (pp per : Option SourceRow) (p0 : MPlant)
    (e : String × Rule) : Bool :=
  match fieldResolved pp per e.1 e.2 with
  | .ok (some v) => !(pyOptEq (some v) (getF p0 e.1))
  | _ => false

theorem fieldWrittenB_congr (pp per : Option SourceRow) (p q : MPlant)
    (e : String × Rule) (h : getF p e.1 = getF q e.1) :
    fieldWrittenB pp per p e = fieldWrittenB pp per q e := by
  unfold fieldWrittenB
  rw [h]

theorem mem_setInsert (a x : String) (s : List String) :
    a ∈ setInsert s x ↔ a ∈ s ∨ a = x := by
  unfold setInsert
  by_cases hx : x ∈ s
  · rw [if_pos hx]
    constructor
    · exact Or.inl
    · rintro (h | rfl)
      · exact h
      · exact hx
  · rw [if_neg hx]
    simp

theorem mem_foldl_setInsertS (l : List String) :
    ∀ (su : List String) (a : String),
    a ∈ l.foldl setInsert su ↔ a ∈ su ∨ a ∈ l := by
  induction l with
  | nil => intro su a; simp
  | cons x t ih =>
    intro su a
    rw [List.foldl_cons, ih, mem_setInsert]
    simp [or_assoc, or_comm, eq_comm]
    tauto

theorem mem_setOfList (l : List String) (a : String) :
    a ∈ setOfList l ↔ a ∈ l := by
  unfold setOfList
  rw [mem_foldl_setInsertS]
  simp

theorem mem_foldl_setInsertP (l : SrcVals) :
    ∀ (su : List String) (a : String),
    a ∈ l.foldl (fun s sv => setInsert s sv.1) su ↔ a ∈ su ∨ a ∈ l.map Prod.fst := by
  induction l with
  | nil => intro su a; simp
  | cons x t ih =>
    intro su a
    rw [List.foldl_cons, ih, mem_setInsert]
    simp [or_assoc, or_comm, eq_comm]
    tauto

theorem setEqB_mem (a b : List String) (h : setEqB a b = true) (x : String) :
    x ∈ a ↔ x ∈ b := by
  unfold setEqB at h
  rw [Bool.and_eq_true, List.all_eq_true, List.all_eq_true] at h
  constructor
  · intro hx
    exact of_decide_eq_true (h.1 x hx)
  · intro hx
    exact of_decide_eq_true (h.2 x hx)

theorem ds_stepField (pp per : Option SourceRow) (st : FState)
    (e : String × Rule) :
    (stepField pp per st e).1.plant.data_sources = st.plant.data_sources := by
  rcases plant_stepField pp per st e with hp | ⟨v, hp⟩
  · rw [hp]
  · rw [hp]
    rfl

theorem ds_foldFields (pp per : Option SourceRow) :
    ∀ (rules : List (String × Rule)) (st : FState),
    (foldFields pp per rules st).1.plant.data_sources = st.plant.data_sources := by
  intro rules
  induction rules with
  | nil => intro st; rfl
  | cons e rest ih =>
    intro st
    simp only [foldFields]
    rcases hs : stepField pp per st e with ⟨st2, b⟩
    have hds := ds_stepField pp per st e
    rw [hs] at hds
    cases b
    · rw [ih st2, hds]
    · exact hds

/-- A non-raising field step either is a no-op with no written value, or
writes the resolved value and adds exactly the candidate sources. -/
theorem stepField_char (pp per : Option SourceRow) (st : FState)
    (e : String × Rule) (hok : (stepField pp per st e).2 = false) :
    (fieldWrittenB pp per st.plant e = false ∧ stepField pp per st e = (st, false)) ∨
    (fieldWrittenB pp per st.plant e = true ∧
      ∃ v, fieldResolved pp per e.1 e.2 = .ok (some v) ∧
        stepField pp per st e
          = (⟨setF st.plant e.1 v, true,
              (fieldCands pp per e.1).foldl (fun s sv => setInsert s sv.1)
                st.sources_used⟩, false)) := by
  by_cases h1 : sourceFieldLookup e.1 = []
  · left
    have hr : fieldResolved pp per e.1 e.2 = .ok none := by
      unfold fieldResolved fieldCandidates
      rw [h1]
      rfl
    exact ⟨by simp [fieldWrittenB, hr], by simp only [stepField, if_pos h1]⟩
  · by_cases h2 : fieldRaw pp per (sourceFieldLookup e.1) = []
    · left
      have hr : fieldResolved pp per e.1 e.2 = .ok none := by
        unfold fieldResolved fieldCandidates
        rw [h2]
        rfl
      exact ⟨by simp [fieldWrittenB, hr],
        by simp only [stepField, if_neg h1, if_pos h2]⟩
    · rcases hc : fieldCandidates pp per e.1 with err | normalized
      · exfalso
        simp only [stepField, if_neg h1, if_neg h2, hc] at hok
        exact Bool.noConfusion hok
      · by_cases h3 : normalized = []
        · left
          have hr : fieldResolved pp per e.1 e.2 = .ok none := by
            unfold fieldResolved
            rw [hc]
            show (if normalized = [] then Except.ok none
              else applyStrategy e.2.strategy normalized (rulePriority e.2))
              = Except.ok none
            rw [if_pos h3]
          exact ⟨by simp [fieldWrittenB, hr],
            by simp only [stepField, if_neg h1, if_neg h2, hc, if_pos h3]⟩
        · rcases hs : applyStrategy e.2.strategy normalized (rulePriority e.2)
            with err | resolved
          · exfalso
            simp only [stepField, if_neg h1, if_neg h2, hc, if_neg h3, hs] at hok
            exact Bool.noConfusion hok
          · have hr : fieldResolved pp per e.1 e.2 = .ok resolved := by
              unfold fieldResolved
              rw [hc]
              show (if normalized = [] then Except.ok none
                else applyStrategy e.2.strategy normalized (rulePriority e.2))
                = Except.ok resolved
              rw [if_neg h3]
              exact hs
            cases resolved with
            | none =>
              left
              exact ⟨by simp [fieldWrittenB, hr],
                by simp only [stepField, if_neg h1, if_neg h2, hc, if_neg h3, hs]⟩
            | some v =>
              by_cases hw : pyOptEq (some v) (getF st.plant e.1) = true
              · left
                refine ⟨by simp [fieldWrittenB, hr, hw], ?_⟩
                simp only [stepField, if_neg h1, if_neg h2, hc, if_neg h3, hs,
                  if_pos hw]
              · right
                refine ⟨?_, v, hr, ?_⟩
                · simp only [fieldWrittenB, hr]
                  rw [Bool.not_eq_true] at hw
                  rw [hw]
                  rfl
                · have hcands : fieldCands pp per e.1 = normalized := by
                    unfold fieldCands
                    rw [hc]
                  rw [hcands]
                  simp only [stepField, if_neg h1, if_neg h2, hc, if_neg h3, hs,
                    if_neg hw]

/-- Through a non-raising pass over uniquely keyed rules, sources_used grows
by exactly the candidate sources of the written fields. -/
theorem foldFields_sources (pp per : Option SourceRow) (p0 : MPlant) :
    ∀ (rules : List (String × Rule)) (st st1 : FState),
    (rules.map Prod.fst).Nodup →
    (∀ e ∈ rules, getF st.plant e.1 = getF p0 e.1) →
    foldFields pp per rules st = (st1, false) →
    ∀ s, s ∈ st1.sources_used ↔
      (s ∈ st.sources_used ∨
       ∃ e ∈ rules, fieldWrittenB pp per p0 e = true ∧ s ∈ fieldSrcs pp per e.1) := by
  intro rules
  induction rules with
  | nil =>
    intro st st1 _ _ hf s
    have hf2 : (st, false) = (st1, false) := hf
    have hst : st = st1 := by
      have := congrArg Prod.fst hf2
      simpa using this
    subst hst
    simp
  | cons e rest ih =>
    intro st st1 hnd hagree hf s
    rcases hstep : stepField pp per st e with ⟨st2, b⟩
    simp only [foldFields, hstep] at hf
    cases b with
    | true =>
      have hf2 : (st2, true) = (st1, false) := hf
      exact absurd (congrArg Prod.snd hf2) (by simp)
    | false =>
      have hf2 : foldFields pp per rest st2 = (st1, false) := hf
      have hok : (stepField pp per st e).2 = false := by rw [hstep]
      have hnd1 := List.nodup_cons.mp hnd
      have hnotmem : e.1 ∉ rest.map Prod.fst := hnd1.1
      have hnd2 : (rest.map Prod.fst).Nodup := hnd1.2
      have hself := hagree e (List.mem_cons_self e rest)
      rcases stepField_char pp per st e hok with ⟨hwF, hstEq⟩ | ⟨hwT, v, hres, hstEq⟩
      · have hst2 : st2 = st := by
          rw [hstep] at hstEq
          have := congrArg Prod.fst hstEq
          simpa using this
        rw [hst2] at hf2
        rw [ih st st1 hnd2 (fun x hx => hagree x (List.mem_cons_of_mem e hx)) hf2 s]
        rw [List.exists_mem_cons_iff]
        have hwF0 : fieldWrittenB pp per p0 e = false := by
          rw [← fieldWrittenB_congr pp per st.plant p0 e hself]
          exact hwF
        simp [hwF0]
      · have hst2 : st2 = ⟨setF st.plant e.1 v, true,
            (fieldCands pp per e.1).foldl (fun s sv => setInsert s sv.1)
              st.sources_used⟩ := by
          rw [hstep] at hstEq
          have := congrArg Prod.fst hstEq
          simpa using this
        rw [hst2] at hf2
        have hagree2 : ∀ x ∈ rest, getF (setF st.plant e.1 v) x.1 = getF p0 x.1 := by
          intro x hx
          have hne : x.1 ≠ e.1 := by
            intro hcc
            exact hnotmem (hcc ▸ List.mem_map_of_mem Prod.fst hx)
          rw [getF_setF_ne _ _ _ _ hne]
          exact hagree x (List.mem_cons_of_mem e hx)
        rw [ih ⟨setF st.plant e.1 v, true,
            (fieldCands pp per e.1).foldl (fun s sv => setInsert s sv.1)
              st.sources_used⟩ st1 hnd2 (fun x hx => hagree2 x hx) hf2 s]
        rw [List.exists_mem_cons_iff]
        have hwT0 : fieldWrittenB pp per p0 e = true := by
          rw [← fieldWrittenB_congr pp per st.plant p0 e hself]
          exact hwT
        simp only [hwT0, true_and, fieldSrcs, mem_foldl_setInsertP]
        tauto

theorem mem_insertStr (a b : String) (l : List String) :
    b ∈ insertStr a l ↔ b = a ∨ b ∈ l := by
  induction l with
  | nil => simp [insertStr]
  | cons c t ih =>
    simp only [insertStr]
    cases hle : strLeB a c
    · rw [if_neg (by simp [hle])]
      simp only [List.mem_cons, ih]
      tauto
    · rw [if_pos (by simp [hle])]
      simp

theorem mem_sortStr (l : List String) (a : String) : a ∈ sortStr l ↔ a ∈ l := by
  induction l with
  | nil => simp [sortStr]
  | cons c t ih =>
    show a ∈ insertStr c (sortStr t) ↔ _
    rw [mem_insertStr, ih]
    simp

/-- Following the specification wording: a source contributed a
currently-stored field value iff for some ruled field its normalized
candidate equals the record's stored non-null value. -/
def contributedB (rules : List (String × Rule)) (pp per : Option SourceRow)
    (finalPlant : MPlant) (s : String) : Bool :=
  rules.any (fun e =>
    match (fieldCands pp per e.1).lookup s with
    | some (some v) =>
      match getF finalPlant e.1 with
      | some w => pyEq v w
      | none => false
    | _ => false)

/-- C8 counterexample: with an image_url priority rule, permapeople supplying
"A" and perenual supplying "B", the merge stores "A" yet records data_sources
as ["perenual", "permapeople"] — the losing source perenual is listed even
though it contributed no currently-stored value, contradicting the claimed
equality with the union of contributing sources. -/
theorem data_sources_lists_noncontributing_source :
    (processRecord rulesIU plantIU (some ppRowIU) (some perRowIU)).1.data_sources
      = ["perenual", "permapeople"] ∧
    contributedB rulesIU (some ppRowIU) (some perRowIU)
      (processRecord rulesIU plantIU (some ppRowIU) (some perRowIU)).1 "perenual"
      = false ∧
    contributedB rulesIU (some ppRowIU) (some perRowIU)
      (processRecord rulesIU plantIU (some ppRowIU) (some perRowIU)).1 "permapeople"
      = true := by
  decide

/-- C8 amended: after the merge engine processes all ruled fields of a record
without a per-record exception (rule keys unique), data_sources equals, as a
set, its previous contents united with every source that supplied a
normalized candidate for at least one field whose resolved value was written
— including sources whose candidate lost the conflict resolution — and no
source is ever removed. -/
theorem data_sources_amended (rules : List (String × Rule)) (plant : MPlant)
    (pp per : Option SourceRow)
    (hnd : (rules.map Prod.fst).Nodup)
    (h : (processRecord rules plant pp per).2 = Outcome.enriched ∨
         (processRecord rules plant pp per).2 = Outcome.unchanged) :
    ∀ s, s ∈ (processRecord rules plant pp per).1.data_sources ↔
      (s ∈ plant.data_sources ∨
       ∃ e ∈ rules, fieldWrittenB pp per plant e = true ∧
         s ∈ fieldSrcs pp per e.1) := by
  by_cases hnone : pp = none ∧ per = none
  · exfalso
    simp only [processRecord, if_pos hnone] at h
    rcases h with h | h <;> exact Outcome.noConfusion h
  · rcases hf : foldFields pp per rules ⟨plant, false, setOfList plant.data_sources⟩
      with ⟨st1, b⟩
    cases b with
    | true =>
      exfalso
      simp only [processRecord, if_neg hnone, hf] at h
      rcases h with h | h <;> exact Outcome.noConfusion h
    | false =>
      have hPdef : processRecord rules plant pp per =
          ((if setEqB st1.sources_used (setOfList st1.plant.data_sources)
            then st1.plant
            else { st1.plant with data_sources := sortStr st1.sources_used }),
           (if st1.changed then Outcome.enriched else Outcome.unchanged)) := by
        simp only [processRecord, if_neg hnone, hf]
      have hds : st1.plant.data_sources = plant.data_sources := by
        have hx := ds_foldFields pp per rules
          ⟨plant, false, setOfList plant.data_sources⟩
        rw [hf] at hx
        exact hx
      intro s
      have hsrc := foldFields_sources pp per plant rules
        ⟨plant, false, setOfList plant.data_sources⟩ st1 hnd
        (fun e _ => rfl) hf s
      rw [hPdef]
      by_cases hse : setEqB st1.sources_used (setOfList st1.plant.data_sources)
          = true
      · rw [if_pos hse]
        show s ∈ st1.plant.data_sources ↔ _
        rw [hds]
        constructor
        · exact Or.inl
        · rintro (hmem | hex)
          · exact hmem
          · have h1 : s ∈ st1.sources_used := hsrc.mpr (Or.inr hex)
            have h2 := (setEqB_mem _ _ hse s).mp h1
            rw [mem_setOfList, hds] at h2
            exact h2
      · rw [if_neg hse]
        show s ∈ sortStr st1.sources_used ↔ _
        rw [mem_sortStr, hsrc, mem_setOfList]

/-- The canonical-plant lookup the perenual per-item handler actually
performs (fetch_perenual.py lines 378-381): by scientific name only. -/
def perenualMatch (db : PerDB) (sp : Species) : Option CPlant :=
  match sciNameOf sp.scientific_name with
  | some s => find_plant_by_scientific_name db.plants s
  | none => none

/-- species common name as _insert_new_species computes it. -/
def ppCommonName (it : PPItem) : String :=
  match it.name with
  | some s => if s = "" then "Unknown" else s
  | none => "Unknown"

/-- The canonical-plant lookup _insert_new_species performs: sci-then-common
through find_plant_by_name. -/
def ppMatch (st : PPState) (it : PPItem) : Option CPlant :=
  match it.scientific_name with
  | some s => find_plant_by_name st.plants s (ppCommonName it)
  | none => none

def dbC9 : PerDB :=
  ⟨[], [⟨1, "Rose", some "Rosa rugosa", none, none, none, true, []⟩], [], 2⟩

def spC9 : Species := ⟨some 7, some "Rose", .str "Foo bar", none⟩

def stC9 : PPState := ⟨[], [], 1⟩

def itC9 : PPItem :=
  ⟨some 9, some "Fern", some "Dryopteris", none, none, none, none, []⟩

theorem processSpecies_new (db : PerDB) (sp : Species) (sid : ℕ)
    (hsid : sp.id = some sid)
    (hnew : (db.prows.any fun r => r.perenual_id == sid) = false) :
    processSpecies db sp =
      match perenualMatch db sp with
      | some plant =>
        ({ db with prows := db.prows ++
            [⟨sid, plant.id, commonNameOf sp, sciNameOf sp.scientific_name,
              imageUrlOf sp⟩] }, 1)
      | none =>
        ({ db with
            plants := db.plants ++
              [⟨db.nextPlantId, commonNameOf sp, sciNameOf sp.scientific_name,
                imageUrlOf sp, some "perenual", some (toString sid), false,
                ["perenual"]⟩],
            prows := db.prows ++
              [⟨sid, db.nextPlantId, commonNameOf sp,
                sciNameOf sp.scientific_name, imageUrlOf sp⟩],
            nextPlantId := db.nextPlantId + 1 }, 1) := by
  cases sp with
  | mk i cn sn di =>
    cases hsid
    simp only [processSpecies]
    have hcond : ¬ ((db.prows.any fun r => r.perenual_id == sid) = true) := by
      simp [hnew]
    rw [if_neg hcond]
    rfl

theorem insert_new_species_eq (st : PPState) (it : PPItem) (pid : ℕ) :
    insert_new_species st it pid =
      match ppMatch st it with
      | some plant =>
        ({ st with pprows := st.pprows ++
            [⟨pid, plant.id, ppCommonName it, it.scientific_name,
              it.description, extractImageUrl it, it.slug, it.version,
              it.parsed⟩] }, false)
      | none =>
        ({ st with
            plants := st.plants ++
              [⟨st.nextPlantId, ppCommonName it, it.scientific_name,
                extractImageUrl it, some "permapeople", some (toString pid),
                false, ["permapeople"]⟩],
            pprows := st.pprows ++
              [⟨pid, st.nextPlantId, ppCommonName it, it.scientific_name,
                it.description, extractImageUrl it, it.slug, it.version,
                it.parsed⟩],
            nextPlantId := st.nextPlantId + 1 }, true) := rfl

/-- C9 counterexample: the perenual handler matches by scientific name only.
With one canonical plant named Rose (scientific name Rosa rugosa) and a new
species whose common name is Rose but whose scientific name is Foo bar, the
claimed sci-then-common lookup would find the existing plant by common name,
yet fetch_perenual creates a second, stub canonical record. -/
theorem perenual_skips_common_name_match :
    find_plant_by_name dbC9.plants "Foo bar" "Rose"
      = some ⟨1, "Rose", some "Rosa rugosa", none, none, none, true, []⟩ ∧
    (processSpecies dbC9 spC9).1.plants.length = 2 ∧
    (processSpecies dbC9 spC9).1.plants.map CPlant.source
      = [none, some "perenual"] := by
  decide

/-- C9 amended: for a new item (id present, no source row yet), the perenual
handler matches an existing canonical record by case-insensitive scientific
name ONLY (no common-name fallback), while the permapeople handler matches by
scientific then common name; in both, when no match exists a stub canonical
record carrying the source and external id is created first, and the linked
source row references the matched or stub record. -/
theorem harvest_match_and_stub_amended (db : PerDB) (sp : Species) (sid : ℕ)
    (st : PPState) (it : PPItem) (pid : ℕ)
    (hsid : sp.id = some sid)
    (hnew : (db.prows.any fun r => r.perenual_id == sid) = false) :
    (∀ p, perenualMatch db sp = some p →
       (processSpecies db sp).1.plants = db.plants ∧
       (processSpecies db sp).1.prows = db.prows ++
         [⟨sid, p.id, commonNameOf sp, sciNameOf sp.scientific_name,
           imageUrlOf sp⟩]) ∧
    (perenualMatch db sp = none →
       (processSpecies db sp).1.plants = db.plants ++
         [⟨db.nextPlantId, commonNameOf sp, sciNameOf sp.scientific_name,
           imageUrlOf sp, some "perenual", some (toString sid), false,
           ["perenual"]⟩] ∧
       (processSpecies db sp).1.prows = db.prows ++
         [⟨sid, db.nextPlantId, commonNameOf sp, sciNameOf sp.scientific_name,
           imageUrlOf sp⟩]) ∧
    (∀ p, ppMatch st it = some p →
       (insert_new_species st it pid).1.plants = st.plants ∧
       (insert_new_species st it pid).1.pprows = st.pprows ++
         [⟨pid, p.id, ppCommonName it, it.scientific_name, it.description,
           extractImageUrl it, it.slug, it.version, it.parsed⟩] ∧
       (insert_new_species st it pid).2 = false) ∧
    (ppMatch st it = none →
       (insert_new_species st it pid).1.plants = st.plants ++
         [⟨st.nextPlantId, ppCommonName it, it.scientific_name,
           extractImageUrl it, some "permapeople", some (toString pid), false,
           ["permapeople"]⟩] ∧
       (insert_new_species st it pid).1.pprows = st.pprows ++
         [⟨pid, st.nextPlantId, ppCommonName it, it.scientific_name,
           it.description, extractImageUrl it, it.slug, it.version,
           it.parsed⟩] ∧
       (insert_new_species st it pid).2 = true) := by
  refine ⟨?_, ?_, ?_, ?_⟩
  · intro p hm
    rw [processSpecies_new db sp sid hsid hnew, hm]
    exact ⟨rfl, rfl⟩
  · intro hm
    rw [processSpecies_new db sp sid hsid hnew, hm]
    exact ⟨rfl, rfl⟩
  · intro p hm
    rw [insert_new_species_eq st it pid, hm]
    exact ⟨rfl, rfl, rfl⟩
  · intro hm
    rw [insert_new_species_eq st it pid, hm]
    exact ⟨rfl, rfl, rfl⟩

/-- Witness for C9 amended: the counterexample scenario plus a fresh
permapeople item, with both hypotheses discharged concretely. -/
theorem harvest_match_and_stub_amended_witness :
    (spC9.id = some 7 ∧ (dbC9.prows.any fun r => r.perenual_id == 7) = false) ∧
    (perenualMatch dbC9 spC9 = none →
       (processSpecies dbC9 spC9).1.plants = dbC9.plants ++
         [⟨dbC9.nextPlantId, commonNameOf spC9, sciNameOf spC9.scientific_name,
           imageUrlOf spC9, some "perenual", some (toString 7), false,
           ["perenual"]⟩] ∧
       (processSpecies dbC9 spC9).1.prows = dbC9.prows ++
         [⟨7, dbC9.nextPlantId, commonNameOf spC9,
           sciNameOf spC9.scientific_name, imageUrlOf spC9⟩]) :=
  ⟨⟨by decide, by decide⟩,
   (harvest_match_and_stub_amended dbC9 spC9 7 stC9 itC9 9
     (by decide) (by decide)).2.1⟩

/-- Witness for C8 amended: in the counterexample scenario, perenual is in
the final data_sources precisely because it supplied a candidate for the
written field, not because its value is stored. -/
theorem data_sources_amended_witness :
    ((rulesIU.map Prod.fst).Nodup ∧
      (processRecord rulesIU plantIU (some ppRowIU) (some perRowIU)).2
        = Outcome.enriched) ∧
    ("perenual" ∈ (processRecord rulesIU plantIU (some ppRowIU)
        (some perRowIU)).1.data_sources ↔
      ("perenual" ∈ plantIU.data_sources ∨
       ∃ e ∈ rulesIU, fieldWrittenB (some ppRowIU) (some perRowIU) plantIU e
           = true ∧ "perenual" ∈ fieldSrcs (some ppRowIU) (some perRowIU) e.1)) :=
  ⟨⟨by decide, by decide⟩,
   data_sources_amended rulesIU plantIU (some ppRowIU) (some perRowIU)
     (by decide) (Or.inl (by decide)) "perenual"⟩

end Loambase
